import Mathlib

/-!
Verification of the buildkite-pipeline-action trigger program (src/main.py).

Modelling conventions for the shallow embedding:
* Python strings are modelled as `List Char` (abbreviated `Str`), so that
  splitting, prefix stripping and concatenation can be reasoned about by
  structural induction.
* Parsed JSON documents (the results of Python `json.loads` and the inputs
  of `json.dumps`) are modelled by the inductive type `Json`.  JSON numbers
  are modelled as integers: the program only ever handles integer-valued
  JSON numbers (build ids/numbers, pull-request ids); fractional and
  exponent syntax is outside the model.
* Python exceptions are modelled by the `PyError` type and fallible code
  returns `Except PyError _`.
* The process environment is an association list `Env`; the parsed GitHub
  event document is passed to `ActionContext.from_env` as a `Json` value
  (the file read itself is an external effect).
* HTTP traffic is modelled by oracles: the trigger response is a `Json`
  argument and poll responses are a function `Nat → Json` giving the body
  of the i-th GET.  Console/network side effects are recorded in a trace
  of `Event`s.
-/

abbrev Str := List Char

/-- Parsed JSON values, as produced by Python `json.loads`.  Objects keep
their members in insertion order, like Python dicts. -/
inductive Json where
  | null : Json
  | bool : Bool → Json
  | num : Int → Json
  | str : Str → Json
  | arr : List Json → Json
  | obj : List (Str × Json) → Json

/-- Python exceptions raised by the program. -/
inductive PyError where
  | keyError : Str → PyError
  | typeError : Str → PyError
  | valueError : Str → PyError
  | runtimeError : Str → PyError
deriving DecidableEq

/-- Python `s.split(sep, maxsplit=1)` restricted to the success shape the
program uses: returns the part before the first `/` and the part after it,
or `none` when the string holds no `/` at all (in which case the Python
two-variable unpacking raises `ValueError`). -/
def splitOnce : Str → Option (Str × Str)
  | [] => none
  | c :: rest =>
    if c = '/' then some ([], rest)
    else
      match splitOnce rest with
      | none => none
      | some (a, b) => some (c :: a, b)

/-- The URL template of `pipeline_url`, with organization and pipeline
name substituted. -/
def buildUrl (organization pipeline : Str) : Str :=
  "https://api.buildkite.com/v2/organizations/".toList ++ organization ++
    "/pipelines/".toList ++ pipeline ++ "/builds".toList

/-- Embeds `pipeline_url` from src/main.py: split the identifier once on
`/`; a missing separator makes the unpacking fail, and an empty
organization, empty name, or a further `/` in the name raises the explicit
`ValueError`. -/
def pipeline_url (pipeline : Str) : Except PyError Str :=
  match splitOnce pipeline with
  | none => .error (.valueError "not enough values to unpack (expected 2, got 1)".toList)
  | some (organization, name) =>
    if organization.isEmpty || name.isEmpty || name.contains '/' then
      .error (.valueError "pipeline must be in the form 'organization/pipeline'".toList)
    else
      .ok (buildUrl organization name)

/-- Looks up a key in a JSON object's member list (first match), like a
Python dict subscript on a dict built by `json.loads`. -/
def jsonFind : List (Str × Json) → Str → Option Json
  | [], _ => none
  | (k', v) :: fs, k => if k' = k then some v else jsonFind fs k

/-- Python `d.get(key)` where `d` is a parsed JSON document: `none` when
the value is not an object or the key is missing.  (The program only calls
`.get` on the parsed event document, which is an object.) -/
def Json.get : Json → Str → Option Json
  | .obj fs, k => jsonFind fs k
  | _, _ => none

/-- Python `d[key]`: `KeyError` on a missing key, `TypeError` when the
subscripted value is not a dict. -/
def pyGetItem (j : Json) (k : Str) : Except PyError Json :=
  match j with
  | .obj fs =>
    match jsonFind fs k with
    | some v => .ok v
    | none => .error (.keyError k)
  | _ => .error (.typeError "value is not subscriptable".toList)

/-- Python truthiness of a parsed JSON value (`None`, `False`, `0`, `""`,
`[]` and `{}` are falsy). -/
def jsonTruthy : Json → Bool
  | .null => false
  | .bool b => b
  | .num n => n != 0
  | .str s => !s.isEmpty
  | .arr xs => !xs.isEmpty
  | .obj fs => !fs.isEmpty

/-- Truthiness of the result of a Python `dict.get` (absent key → `None`
→ falsy). -/
def optTruthy : Option Json → Bool
  | none => false
  | some v => jsonTruthy v

/-- Decimal digit characters. -/
def digitChar : Nat → Char
  | 0 => '0' | 1 => '1' | 2 => '2' | 3 => '3' | 4 => '4'
  | 5 => '5' | 6 => '6' | 7 => '7' | 8 => '8' | _ => '9'

/-- Decimal rendering of a natural number, most significant digit first
(Python `str`). -/
def natToStr (n : Nat) : Str :=
  if n = 0 then ['0'] else ((Nat.digits 10 n).reverse).map digitChar

/-- Decimal rendering of an integer (Python `str`). -/
def intToStr : Int → Str
  | .ofNat n => natToStr n
  | .negSucc m => '-' :: natToStr (m + 1)

mutual

/-- Python `str()` of a parsed JSON value, as interpolated into the
program's f-strings and `::set-output` lines.  Lists and dicts are
rendered through `pyRepr`; `pyRepr` of a string is simplified to plain
single quotes (the program never prints container-valued fields, so the
quote-escaping subtleties of Python `repr` are outside the model). -/
def pyStr : Json → Str
  | .null => "None".toList
  | .bool true => "True".toList
  | .bool false => "False".toList
  | .num i => intToStr i
  | .str s => s
  | .arr xs => '[' :: pyReprList xs ++ [']']
  | .obj fs => '\x7b' :: pyReprFields fs ++ ['\x7d']

/-- Python `repr()` of a parsed JSON value (see `pyStr`). -/
def pyRepr : Json → Str
  | .null => "None".toList
  | .bool true => "True".toList
  | .bool false => "False".toList
  | .num i => intToStr i
  | .str s => '\'' :: s ++ ['\'']
  | .arr xs => '[' :: pyReprList xs ++ [']']
  | .obj fs => '\x7b' :: pyReprFields fs ++ ['\x7d']

/-- Comma-separated `repr`s of list elements. -/
def pyReprList : List Json → Str
  | [] => []
  | [x] => pyRepr x
  | x :: y :: rest => pyRepr x ++ ", ".toList ++ pyReprList (y :: rest)

/-- Comma-separated `repr(k): repr(v)` renderings of dict members. -/
def pyReprFields : List (Str × Json) → Str
  | [] => []
  | [(k, v)] => pyRepr (.str k) ++ ": ".toList ++ pyRepr v
  | (k, v) :: m :: rest =>
    pyRepr (.str k) ++ ": ".toList ++ pyRepr v ++ ", ".toList ++ pyReprFields (m :: rest)

end

/-- The escaping `json.dumps` applies inside string literals: `"` and `\`
get a backslash.  Control characters and the `ensure_ascii` escaping of
non-ASCII characters are outside the model; the round-trip theorem is
stated for strings without control characters. -/
def escapeChar (c : Char) : Str :=
  if c = '"' then ['\\', '"']
  else if c = '\\' then ['\\', '\\']
  else [c]

/-- Escapes a whole string literal body for `json.dumps`. -/
def escapeStr : Str → Str
  | [] => []
  | c :: cs => escapeChar c ++ escapeStr cs

mutual

/-- Embeds Python `json.dumps` with its default separators `', '` and
`': '` (numbers are integers in the model, see `Json`). -/
def json_dumps : Json → Str
  | .null => "null".toList
  | .bool true => "true".toList
  | .bool false => "false".toList
  | .num i => intToStr i
  | .str s => '"' :: escapeStr s ++ ['"']
  | .arr xs => '[' :: dumpsElems xs ++ [']']
  | .obj fs => '\x7b' :: dumpsFields fs ++ ['\x7d']

/-- `json.dumps` rendering of the elements of an array, `', '`-separated. -/
def dumpsElems : List Json → Str
  | [] => []
  | [x] => json_dumps x
  | x :: y :: rest => json_dumps x ++ ", ".toList ++ dumpsElems (y :: rest)

/-- `json.dumps` rendering of the members of an object, `', '`-separated,
each as `"key": value`. -/
def dumpsFields : List (Str × Json) → Str
  | [] => []
  | [(k, v)] => '"' :: escapeStr k ++ '"' :: ':' :: ' ' :: json_dumps v
  | (k, v) :: m :: rest =>
    '"' :: escapeStr k ++ '"' :: ':' :: ' ' :: json_dumps v ++ ", ".toList ++
      dumpsFields (m :: rest)

end

/-- JSON insignificant whitespace. -/
def isWs (c : Char) : Bool :=
  c = ' ' || c = '\t' || c = '\n' || c = '\r'

/-- Skips insignificant whitespace, as the Python `json` scanner does
between tokens. -/
def skipWs : Str → Str
  | [] => []
  | c :: rest => if isWs c then skipWs rest else c :: rest

/-- Resolves a backslash escape inside a JSON string literal.  The `\\uXXXX`
form is outside the model (the program's data never round-trips through
it); it is reported as a parse error. -/
def unescapeChar (c : Char) : Option Char :=
  if c = '"' then some '"'
  else if c = '\\' then some '\\'
  else if c = '/' then some '/'
  else if c = 'b' then some '\x08'
  else if c = 'f' then some '\x0c'
  else if c = 'n' then some '\n'
  else if c = 'r' then some '\r'
  else if c = 't' then some '\t'
  else none

/-- Parses the body of a JSON string literal after the opening quote, up
to and including the closing quote.  Like Python's strict scanner it
rejects raw control characters. -/
def parseStringBody : Str → Except Str (Str × Str)
  | [] => .error "Unterminated string".toList
  | c :: rest =>
    if c = '"' then .ok ([], rest)
    else if c = '\\' then
      match rest with
      | [] => .error "Unterminated string".toList
      | e :: rest2 =>
        match unescapeChar e with
        | none => .error "Invalid escape".toList
        | some d =>
          match parseStringBody rest2 with
          | .error msg => .error msg
          | .ok (tail, s') => .ok (d :: tail, s')
    else if c.toNat < 32 then .error "Invalid control character".toList
    else
      match parseStringBody rest with
      | .error msg => .error msg
      | .ok (tail, s') => .ok (c :: tail, s')

/-- Numeric value of a list of decimal digit characters. -/
def digitsVal (ds : Str) : Nat :=
  ds.foldl (fun a c => 10 * a + (c.toNat - 48)) 0

/-- Parses the integer part of a JSON number the way the scanner's regular
expression does: a lone `0`, or a nonzero digit followed by more digits
(so `01` parses as `0` with `1` left over, as in Python). -/
def parseNat : Str → Except Str (Nat × Str)
  | [] => .error "Expecting value".toList
  | c :: rest =>
    if c = '0' then .ok (0, rest)
    else if c.isDigit then
      .ok (digitsVal (c :: rest.takeWhile Char.isDigit), rest.dropWhile Char.isDigit)
    else .error "Expecting value".toList

/-- Parses a JSON number (integer part only, see `Json`). -/
def parseNumber : Str → Except Str (Json × Str)
  | [] => .error "Expecting value".toList
  | c :: rest =>
    if c = '-' then
      match parseNat rest with
      | .error msg => .error msg
      | .ok (n, r) => .ok (.num (-(n : Int)), r)
    else
      match parseNat (c :: rest) with
      | .error msg => .error msg
      | .ok (n, r) => .ok (.num (n : Int), r)

/-- Python `d[k] = v` on a dict: replaces the value in place when the key
exists, appends otherwise (used when the object scanner collapses
duplicate keys). -/
def insertKey : List (Str × Json) → Str → Json → List (Str × Json)
  | [], k, v => [(k, v)]
  | (k', v') :: fs, k, v =>
    if k' = k then (k', v) :: fs else (k', v') :: insertKey fs k v

/-- Literal-prefix test used by the scanner for `true`/`false`/`null`
(equivalent to `List.isPrefixOf`, stated recursively on the first list so
that it evaluates one character at a time). -/
def litPrefix : Str → Str → Bool
  | [], _ => true
  | a :: as, s =>
    match s with
    | [] => false
    | b :: bs => if a = b then litPrefix as bs else false

mutual

/-- Embeds the Python `json` scanner for one JSON value: skips leading
whitespace, then dispatches on the first character.  The `fuel` argument
only bounds recursion depth; `json_loads` supplies enough for any input. -/
def parseValue : Nat → Str → Except Str (Json × Str)
  | 0, _ => .error "Recursion limit".toList
  | fuel + 1, s =>
    match skipWs s with
    | [] => .error "Expecting value".toList
    | c :: rest =>
      if c = '\x7b' then
        match skipWs rest with
        | [] => .error "Expecting property name".toList
        | c2 :: rest2 =>
          if c2 = '\x7d' then .ok (.obj [], rest2)
          else
            match parseMembers fuel rest [] with
            | .error msg => .error msg
            | .ok (fs, r) => .ok (.obj fs, r)
      else if c = '[' then
        match skipWs rest with
        | [] => .error "Expecting value".toList
        | c2 :: rest2 =>
          if c2 = ']' then .ok (.arr [], rest2)
          else
            match parseElems fuel rest [] with
            | .error msg => .error msg
            | .ok (xs, r) => .ok (.arr xs, r)
      else if c = '"' then
        match parseStringBody rest with
        | .error msg => .error msg
        | .ok (body, r) => .ok (.str body, r)
      else
        if litPrefix "true".toList (c :: rest) then .ok (.bool true, rest.drop 3)
        else if litPrefix "false".toList (c :: rest) then .ok (.bool false, rest.drop 4)
        else if litPrefix "null".toList (c :: rest) then .ok (.null, rest.drop 3)
        else parseNumber (c :: rest)
termination_by structural fuel s => fuel

/-- Parses the elements of a nonempty JSON array after the opening
bracket, up to and including the closing bracket. -/
def parseElems : Nat → Str → List Json → Except Str (List Json × Str)
  | 0, _, _ => .error "Recursion limit".toList
  | fuel + 1, s, acc =>
    match parseValue fuel s with
    | .error msg => .error msg
    | .ok (v, r) =>
      match skipWs r with
      | [] => .error "Expecting delimiter".toList
      | c :: r2 =>
        if c = ',' then parseElems fuel r2 (acc ++ [v])
        else if c = ']' then .ok (acc ++ [v], r2)
        else .error "Expecting delimiter".toList
termination_by structural fuel s acc => fuel

/-- Parses the members of a nonempty JSON object after the opening brace,
up to and including the closing brace, collapsing duplicate keys the way
a Python dict assignment does. -/
def parseMembers : Nat → Str → List (Str × Json) → Except Str (List (Str × Json) × Str)
  | 0, _, _ => .error "Recursion limit".toList
  | fuel + 1, s, acc =>
    match skipWs s with
    | [] => .error "Expecting property name".toList
    | c :: rest =>
      if c = '"' then
        match parseStringBody rest with
        | .error msg => .error msg
        | .ok (k, r) =>
          match skipWs r with
          | [] => .error "Expecting colon delimiter".toList
          | c2 :: r2 =>
            if c2 = ':' then
              match parseValue fuel r2 with
              | .error msg => .error msg
              | .ok (v, r3) =>
                match skipWs r3 with
                | [] => .error "Expecting delimiter".toList
                | c3 :: r4 =>
                  if c3 = ',' then parseMembers fuel r4 (insertKey acc k v)
                  else if c3 = '\x7d' then .ok (insertKey acc k v, r4)
                  else .error "Expecting delimiter".toList
            else .error "Expecting colon delimiter".toList
      else .error "Expecting property name".toList
termination_by structural fuel s acc => fuel

end

/-- Embeds Python `json.loads`: parse one value, then require only
whitespace to remain.  A parse failure is a `JSONDecodeError`, which is a
`ValueError`. -/
def json_loads (s : Str) : Except PyError Json :=
  match parseValue (s.length + 1) s with
  | .error msg => .error (.valueError msg)
  | .ok (v, rest) =>
    if (skipWs rest).isEmpty then .ok v
    else .error (.valueError "Extra data".toList)

/-- The process environment, an association of variable names to values. -/
abbrev Env := List (Str × Str)

/-- Python `env.get(key)`. -/
def envGet : Env → Str → Option Str
  | [], _ => none
  | (k', v) :: rest, k => if k' = k then some v else envGet rest k

/-- Python `env.get(key, default)`. -/
def envGetD (env : Env) (k dflt : Str) : Str :=
  match envGet env k with
  | some v => v
  | none => dflt

/-- Python `env[key]`: `KeyError` when the variable is absent. -/
def envItem (env : Env) (k : Str) : Except PyError Str :=
  match envGet env k with
  | some v => .ok v
  | none => .error (.keyError k)

/-- Python `opt or fallback` on the result of `env.get`: the fallback is
used when the variable is absent or its value is the empty string. -/
def orFallback (o : Option Str) (fallback : Except PyError Str) : Except PyError Str :=
  match o with
  | some s => if s.isEmpty then fallback else .ok s
  | none => fallback

/-- Python `str.lower()` as applied to the boolean-as-string inputs. -/
def lowerStr (s : Str) : Str :=
  s.map Char.toLower

/-- Embeds the `PullRequestContext` dataclass.  The dataclass's runtime
field values are whatever the event document holds, so they stay `Json`. -/
structure PullRequestContext where
  number : Json
  base_branch : Json
  repository : Json

/-- Embeds the `ActionContext` dataclass.  `env` is the value parsed from
the extra-environment input (any JSON value at runtime, see
`ActionContext.from_env`). -/
structure ActionContext where
  author : Json
  access_token : Str
  pipeline : Str
  branch : Str
  commit : Str
  message : Str
  env : Json
  pull_request : Option PullRequestContext
  is_async : Bool
  is_test_mode : Bool

/-- Embeds the private helper `ActionContext.__branch`: a truthy
`GITHUB_HEAD_REF` wins; otherwise `GITHUB_REF` (required) with a
`refs/heads/` prefix stripped, or unchanged. -/
def ActionContext.branchFromEnv (env : Env) : Except PyError Str :=
  let fromRef : Except PyError Str :=
    match envGet env "GITHUB_REF".toList with
    | none => .error (.keyError "GITHUB_REF".toList)
    | some git_ref =>
      if "refs/heads/".toList.isPrefixOf git_ref then
        .ok (git_ref.drop "refs/heads/".toList.length)
      else
        .ok git_ref
  match envGet env "GITHUB_HEAD_REF".toList with
  | some head_ref => if head_ref.isEmpty then fromRef else .ok head_ref
  | none => fromRef

/-- Embeds the private helper `ActionContext.__pull_request_context`:
`none` when the event has no truthy `pull_request` member, else the three
extracted fields (a missing nested field is a `KeyError`). -/
def ActionContext.pullRequestFromEvent (event : Json) : Except PyError (Option PullRequestContext) :=
  match Json.get event "pull_request".toList with
  | none => .ok none
  | some pr =>
    if jsonTruthy pr then
      match pyGetItem pr "number".toList with
      | .error e => .error e
      | .ok number =>
        match pyGetItem pr "base".toList with
        | .error e => .error e
        | .ok base =>
          match pyGetItem base "ref".toList with
          | .error e => .error e
          | .ok base_branch =>
            match pyGetItem pr "head".toList with
            | .error e => .error e
            | .ok head =>
              match pyGetItem head "repo".toList with
              | .error e => .error e
              | .ok repo =>
                match pyGetItem repo "git_url".toList with
                | .error e => .error e
                | .ok repository => .ok (some ⟨number, base_branch, repository⟩)
    else .ok none

/-- The `INPUT_ENV` string handed to `json.loads`: the input value, or
the literal two-character object text when the input is absent or empty. -/
def extraEnvText (env : Env) : Str :=
  match envGet env "INPUT_ENV".toList with
  | some s => if s.isEmpty then ['\x7b', '\x7d'] else s
  | none => ['\x7b', '\x7d']

/-- Embeds `ActionContext.from_env`.  The event-description file named by
`GITHUB_EVENT_PATH` is an external input: the variable must be present
(its absence is a `KeyError`, as in the source) and the parsed document is
the `event` argument.  Field expressions are evaluated in the source's
argument order, so the first failing one determines the raised error. -/
def ActionContext.from_env (env : Env) (event : Json) : Except PyError ActionContext :=
  match envItem env "GITHUB_EVENT_PATH".toList with
  | .error e => .error e
  | .ok _ =>
    let author := match Json.get event "pusher".toList with
      | some p => p
      | none => Json.obj []
    match envItem env "INPUT_ACCESS_TOKEN".toList with
    | .error e => .error e
    | .ok access_token =>
      match envItem env "INPUT_PIPELINE".toList with
      | .error e => .error e
      | .ok pipeline =>
        match orFallback (envGet env "INPUT_BRANCH".toList) (ActionContext.branchFromEnv env) with
        | .error e => .error e
        | .ok branch =>
          match orFallback (envGet env "INPUT_COMMIT".toList) (envItem env "GITHUB_SHA".toList) with
          | .error e => .error e
          | .ok commit =>
            match envItem env "INPUT_MESSAGE".toList with
            | .error e => .error e
            | .ok message =>
              match ActionContext.pullRequestFromEvent event with
              | .error e => .error e
              | .ok pull_request =>
                match json_loads (extraEnvText env) with
                | .error e => .error e
                | .ok extraEnv =>
                  .ok {
                    author := author
                    access_token := access_token
                    pipeline := pipeline
                    branch := branch
                    commit := commit
                    message := message
                    env := extraEnv
                    pull_request := pull_request
                    is_async := lowerStr (envGetD env "INPUT_ASYNC".toList "false".toList) = "true".toList
                    is_test_mode := lowerStr (envGetD env "TEST_MODE".toList "false".toList) = "true".toList
                  }

/-- Observable actions of one run: console lines, `::set-output` lines,
HTTP requests and sleeps.  The wall-clock-driven "Still waiting" notice of
the poll loop is outside the model (it depends on real elapsed time and no
claim concerns it). -/
inductive Event where
  | info : Str → Event
  | setOutput : Str → Str → Event
  | httpPost : Str → Str → Event
  | httpGet : Str → Event
  | sleep : Nat → Event
deriving DecidableEq

/-- The accepted-state check of `main`: `state not in ["scheduled",
"running", "passed"]` is a failure.  The comparison is Python `==`, so
only string states can be accepted. -/
def stateAccepted : Json → Bool
  | .str s => s = "scheduled".toList || s = "running".toList || s = "passed".toList
  | _ => false

/-- Embeds `state_emoji`. -/
def state_emoji : Json → Str
  | .str s =>
    if s = "scheduled".toList then "🔗️".toList
    else if s = "running".toList then "🏃".toList
    else if s = "passed".toList then "💚".toList
    else "💔".toList
  | _ => "💔".toList

/-- Embeds `report_build_state`: reads `state` and `web_url` from the
descriptor, prints the status line, returns the state value. -/
def report_build_state (build_info : Json) : Except PyError (Json × Event) :=
  match pyGetItem build_info "state".toList with
  | .error e => .error e
  | .ok state =>
    match pyGetItem build_info "web_url".toList with
    | .error e => .error e
    | .ok web_url =>
      .ok (state, .info (state_emoji state ++ " Build ".toList ++ pyStr state ++
        " → ".toList ++ pyStr web_url))

/-- The five individually named outputs of `output_build_info`, in the
order they are printed. -/
def outputFields : List Str :=
  ["id".toList, "number".toList, "url".toList, "web_url".toList, "state".toList]

/-- Emits the `::set-output` lines for the named fields one at a time,
stopping (with the raised `KeyError`) at the first missing field, then the
`data` line holding the serialized descriptor. -/
def outputNamed (build_info : Json) : List Str → List Event × Option PyError
  | [] => ([.setOutput "data".toList (json_dumps build_info)], none)
  | n :: rest =>
    match pyGetItem build_info n with
    | .error e => ([], some e)
    | .ok v =>
      let (evs, err) := outputNamed build_info rest
      (.setOutput n (pyStr v) :: evs, err)

/-- Embeds `output_build_info`: the six `::set-output` lines (or the
prefix emitted before a missing field's `KeyError`). -/
def output_build_info (build_info : Json) : List Event × Option PyError :=
  outputNamed build_info outputFields

/-- Embeds `trigger_pipeline`.  The HTTP response body is the `resp`
oracle (a transport failure or non-JSON body would abort the run and is
outside the claims); the returned events are the POST request with its
JSON payload.  Progress printing happens in `main`. -/
def trigger_pipeline (ctx : ActionContext) (resp : Json) : Except PyError (Json × List Event) :=
  match pipeline_url ctx.pipeline with
  | .error e => .error e
  | .ok url =>
    let payload := Json.obj (
      [("commit".toList, Json.str ctx.commit),
       ("branch".toList, Json.str ctx.branch),
       ("message".toList, Json.str ctx.message),
       ("author".toList, ctx.author),
       ("env".toList, ctx.env)] ++
      match ctx.pull_request with
      | some pr =>
        [("pull_request_base_branch".toList, pr.base_branch),
         ("pull_request_id".toList, pr.number),
         ("pull_request_repository".toList, pr.repository)]
      | none => [])
    .ok (resp, [.httpPost url (json_dumps payload)])

/-- The loop of `wait_for_build`: while the descriptor has no truthy
`finished_at`, sleep 15 and replace it with the next poll response.
`polled` counts issued GETs (and indexes the `polls` oracle); the trace
accumulates in `tr`.  Returns `none` when `fuel` iterations were not
enough (the source loop is unbounded). -/
def waitLoop (url : Str) (polls : Nat → Json) :
    Nat → Json → Nat → List Event → Option (Json × Nat × List Event)
  | fuel, build_info, polled, tr =>
    if optTruthy (Json.get build_info "finished_at".toList) then some (build_info, polled, tr)
    else
      match fuel with
      | 0 => none
      | fuel' + 1 =>
        waitLoop url polls fuel' (polls polled) (polled + 1)
          (tr ++ [.sleep 15, .httpGet url])

/-- Embeds `wait_for_build`: starts from the empty dict (so the loop body
always runs at least once) and returns the final descriptor together with
the number of GETs issued and the trace. -/
def wait_for_build (url : Str) (polls : Nat → Json) (fuel : Nat) :
    Option (Json × Nat × List Event) :=
  waitLoop url polls fuel (Json.obj []) 0 [.info "⌛ Waiting for build to finish".toList]

/-- The message of the `RuntimeError` raised for a non-accepted final
state. -/
def failMsg (state : Json) : Str :=
  "Pipeline failed with state '".toList ++ pyStr state ++ ['\'']

/-- The tail of `main` after the final descriptor and state are known:
emit the outputs, then raise for a non-accepted state. -/
def mainFinish (build_info state : Json) (tr : List Event) :
    List Event × Except PyError Unit :=
  let (outEvs, err) := output_build_info build_info
  match err with
  | some e => (tr ++ outEvs, .error e)
  | none =>
    if stateAccepted state then (tr ++ outEvs, .ok ())
    else (tr ++ outEvs, .error (.runtimeError (failMsg state)))

/-- Embeds `main` for an already-constructed context (Lean reserves the
name `main` for program entry points): trigger, report,
optionally wait and re-report, emit outputs, raise on a failing state.
`none` means the poll loop outlived `fuel` iterations. -/
def mainRun (ctx : ActionContext) (triggerResp : Json) (polls : Nat → Json) (fuel : Nat) :
    Option (List Event × Except PyError Unit) :=
  let tr0 := [Event.info ("🪁 Triggering ".toList ++ ctx.pipeline ++ " for ".toList ++
    ctx.branch ++ ['@'] ++ ctx.commit)]
  match trigger_pipeline ctx triggerResp with
  | .error e => some (tr0, .error e)
  | .ok (build_info, trigEvs) =>
    let tr1 := tr0 ++ trigEvs
    match report_build_state build_info with
    | .error e => some (tr1, .error e)
    | .ok (state, reportEv) =>
      let tr2 := tr1 ++ [reportEv]
      if ctx.is_async then
        some (mainFinish build_info state tr2)
      else
        match pyGetItem build_info "url".toList with
        | .error e => some (tr2, .error e)
        | .ok urlJson =>
          match urlJson with
          | .str url =>
            match wait_for_build url polls fuel with
            | none => none
            | some (build_info2, _, waitEvs) =>
              match report_build_state build_info2 with
              | .error e => some (tr2 ++ waitEvs, .error e)
              | .ok (state2, reportEv2) =>
                some (mainFinish build_info2 state2 (tr2 ++ waitEvs ++ [reportEv2]))
          | _ => some (tr2, .error (.typeError "url must be a string".toList))

/-- The final build descriptor of a run — the descriptor `main` hands to
its output-and-check tail (`mainFinish`): the trigger response in async
mode, the poll loop's last response otherwise.  `none` when the run aborts
before reaching the tail (trigger configuration error, missing reported
field, non-string polling URL, or the poll loop outliving `fuel`).  The
control flow mirrors `mainRun` branch for branch. -/
def finalDescriptor (ctx : ActionContext) (trig : Json) (polls : Nat → Json)
    (fuel : Nat) : Option Json :=
  match trigger_pipeline ctx trig with
  | .error _ => none
  | .ok (build_info, _) =>
    match report_build_state build_info with
    | .error _ => none
    | .ok _ =>
      if ctx.is_async then some build_info
      else
        match pyGetItem build_info "url".toList with
        | .error _ => none
        | .ok urlJson =>
          match urlJson with
          | .str url =>
            match wait_for_build url polls fuel with
            | none => none
            | some (build_info2, _, _) =>
              match report_build_state build_info2 with
              | .error _ => none
              | .ok _ => some build_info2
          | _ => none

/-- The events the poll loop appends for `n` iterations: a 15-unit sleep
before each GET request. -/
def pollEvents (url : Str) : Nat → List Event
  | 0 => []
  | n + 1 => Event.sleep 15 :: Event.httpGet url :: pollEvents url n

/-- Recognizes poll (GET) requests in a trace. -/
def isGetEvent : Event → Bool
  | .httpGet _ => true
  | _ => false

/-- Recognizes trigger (POST) requests in a trace. -/
def isPostEvent : Event → Bool
  | .httpPost _ _ => true
  | _ => false

/-- A concrete polling URL used by witnesses. -/
def specUrl : Str :=
  "https://api.buildkite.com/v2/organizations/myorg/pipelines/mypipe/builds/7".toList

/-- A concrete in-flight build descriptor (no finish marker). -/
def runningResp : Json :=
  .obj [("id".toList, .str "b-1".toList), ("number".toList, .num 7),
        ("url".toList, .str specUrl),
        ("web_url".toList, .str "https://buildkite.com/myorg/mypipe/builds/7".toList),
        ("state".toList, .str "running".toList),
        ("finished_at".toList, .null)]

/-- A concrete finished, passed build descriptor. -/
def passedResp : Json :=
  .obj [("id".toList, .str "b-1".toList), ("number".toList, .num 7),
        ("url".toList, .str specUrl),
        ("web_url".toList, .str "https://buildkite.com/myorg/mypipe/builds/7".toList),
        ("state".toList, .str "passed".toList),
        ("finished_at".toList, .str "2021-05-01T00:00:00.000Z".toList)]

/-- A concrete scheduled build descriptor (fresh trigger response). -/
def scheduledResp : Json :=
  .obj [("id".toList, .str "b-1".toList), ("number".toList, .num 7),
        ("url".toList, .str specUrl),
        ("web_url".toList, .str "https://buildkite.com/myorg/mypipe/builds/7".toList),
        ("state".toList, .str "scheduled".toList)]

/-- A concrete finished, failed build descriptor. -/
def failedResp : Json :=
  .obj [("id".toList, .str "b-1".toList), ("number".toList, .num 7),
        ("url".toList, .str specUrl),
        ("web_url".toList, .str "https://buildkite.com/myorg/mypipe/builds/7".toList),
        ("state".toList, .str "failed".toList),
        ("finished_at".toList, .str "2021-05-01T00:00:00.000Z".toList)]

/-- The spec's synchronous scenario: the first poll still running, every
later poll passed with a finish marker. -/
def specPolls : Nat → Json :=
  fun i => if i = 0 then runningResp else passedResp

/-- A concrete asynchronous invocation context used by witnesses. -/
def specCtxAsync : ActionContext :=
  { author := Json.obj []
    access_token := "tok".toList
    pipeline := "myorg/mypipe".toList
    branch := "main".toList
    commit := "abc123".toList
    message := "msg".toList
    env := Json.obj []
    pull_request := none
    is_async := true
    is_test_mode := false }

/-- A concrete synchronous invocation context used by witnesses. -/
def specCtxSync : ActionContext :=
  { specCtxAsync with is_async := false }

/-- Python falsiness of an optional environment string: absent or empty
(the `or`-fallback condition). -/
def optStrFalsy : Option Str → Bool
  | none => true
  | some s => s.isEmpty

/-- Base witness environment shared by the concrete environments below. -/
def envBase : Env :=
  [("GITHUB_EVENT_PATH".toList, "/github/workflow/event.json".toList),
   ("INPUT_ACCESS_TOKEN".toList, "tok".toList),
   ("INPUT_PIPELINE".toList, "myorg/mypipe".toList),
   ("INPUT_MESSAGE".toList, "msg".toList),
   ("GITHUB_SHA".toList, "abc123".toList),
   ("GITHUB_REF".toList, "refs/heads/main".toList)]

/-- `envBase` with the ref pointing at a tag instead of a branch. -/
def envTags : Env :=
  ("GITHUB_REF".toList, "refs/tags/v1".toList) :: envBase

/-- `envBase` with a JSON-array extra-env input. -/
def envArrInput : Env :=
  ("INPUT_ENV".toList, "[1, 2]".toList) :: envBase

/-- `envBase` with a JSON-string extra-env input. -/
def envStrInput : Env :=
  ("INPUT_ENV".toList, "\"x\"".toList) :: envBase

/-- `envBase` with the JSON-object extra-env input of the spec. -/
def envObjInput : Env :=
  ("INPUT_ENV".toList, '\x7b' :: "\"A\":\"1\"".toList ++ ['\x7d']) :: envBase

/-- `envBase` with the malformed extra-env input of the spec. -/
def envBadInput : Env :=
  ("INPUT_ENV".toList, '\x7b' :: "bad json".toList) :: envBase

/-- `envBase` with empty-string branch and commit overrides. -/
def envEmptyOverride : Env :=
  ("INPUT_BRANCH".toList, []) :: ("INPUT_COMMIT".toList, []) :: envBase

/-- No-control-character check for the round-trip theorem: `json.dumps`
escapes control characters through forms (`\\n`, `\\uXXXX`) that are
outside the model (see `escapeChar`), so round-tripping is stated for
strings free of them. -/
def strPrintable (s : Str) : Bool :=
  s.all (fun c => 32 ≤ c.toNat)

/-- Whether an object member list already holds a key. -/
def containsKey (fs : List (Str × Json)) (k : Str) : Bool :=
  fs.any (fun kv => kv.1 = k)

/-- Pairwise-distinct member keys — guaranteed for any dict coming out of
Python, where `json.loads` collapses duplicates. -/
def keysNodup : List (Str × Json) → Bool
  | [] => true
  | (k, _) :: fs => !containsKey fs k && keysNodup fs

mutual

/-- A JSON value is printable when its strings (and keys) carry no
control characters and its objects have pairwise-distinct keys: on this
domain `json.dumps` output parses back exactly. -/
def printableJ : Json → Bool
  | .null => true
  | .bool _ => true
  | .num _ => true
  | .str s => strPrintable s
  | .arr xs => printableL xs
  | .obj fs => keysNodup fs && printableF fs

/-- Printability of every element of an array. -/
def printableL : List Json → Bool
  | [] => true
  | x :: xs => printableJ x && printableL xs

/-- Printability of every member of an object. -/
def printableF : List (Str × Json) → Bool
  | [] => true
  | (k, v) :: fs => strPrintable k && printableJ v && printableF fs

end

/-- The next character, if any, is not a digit — so the greedy number
scanner stops exactly at a printed number's last digit. -/
def notDigitStart : Str → Bool
  | [] => true
  | c :: _ => !c.isDigit

/-- What follows the first element inside a dumped array: nothing, or the
`', '` separator and the remaining elements. -/
def elemsTail (xs : List Json) : Str :=
  match xs with
  | [] => []
  | _ => ',' :: ' ' :: dumpsElems xs

/-- What follows the first member inside a dumped object: nothing, or the
`', '` separator and the remaining members. -/
def fieldsTail (fs : List (Str × Json)) : Str :=
  match fs with
  | [] => []
  | _ => ',' :: ' ' :: dumpsFields fs

theorem splitOnce_eq_none (s : Str) : splitOnce s = none ↔ '/' ∉ s := by
  induction s with
  | nil => simp [splitOnce]
  | cons c rest ih =>
    simp only [splitOnce]
    by_cases hc : c = '/'
    · subst hc; simp
    · rcases h : splitOnce rest with _ | ⟨a, b⟩
      · simp [hc, h, ih.mp h, Ne.symm hc]
      · have hmem : '/' ∈ rest := by
          by_contra hmem
          rw [← ih] at hmem
          rw [hmem] at h
          exact Option.noConfusion h
        simp [hc, h, hmem]

theorem splitOnce_append (org name : Str) (h : '/' ∉ org) :
    splitOnce (org ++ '/' :: name) = some (org, name) := by
  induction org with
  | nil => simp [splitOnce]
  | cons c rest ih =>
    have hc : c ≠ '/' := by intro hc; exact h (hc ▸ List.mem_cons_self c rest)
    have hrest : '/' ∉ rest := fun hm => h (List.mem_cons_of_mem c hm)
    simp [splitOnce, hc, ih hrest]

theorem splitOnce_some {s a b : Str} (h : splitOnce s = some (a, b)) :
    s = a ++ '/' :: b ∧ '/' ∉ a := by
  induction s generalizing a b with
  | nil => simp [splitOnce] at h
  | cons c rest ih =>
    simp only [splitOnce] at h
    by_cases hc : c = '/'
    · subst hc
      simp at h
      obtain ⟨ha, hb⟩ := h
      subst ha; subst hb
      simp
    · rcases hr : splitOnce rest with _ | ⟨a', b'⟩ <;> rw [hr] at h
      · simp [hc] at h
      · simp [hc] at h
        obtain ⟨ha, hb⟩ := h
        subst hb
        obtain ⟨hs, hmem⟩ := ih hr
        subst hs
        refine ⟨by rw [← ha]; simp, ?_⟩
        rw [← ha]
        intro hin
        rcases List.mem_cons.mp hin with heq | hin'
        · exact hc heq.symm
        · exact hmem hin'

theorem contains_eq_false_of_not_mem {l : Str} {c : Char} (h : c ∉ l) :
    l.contains c = false := by
  by_contra hc
  exact h (List.elem_iff.mp (Bool.of_not_eq_false hc))

/-- C1: for identifiers of the form `org/name` with `org` and `name`
non-empty and `/`-free, `pipeline_url` returns exactly the documented URL
with both parts substituted verbatim; an identifier with no separator
(`'/'`-count 0), more than one separator (count ≥ 2), an empty
organization part (leading `/`) or an empty name part (trailing `/`)
makes it raise a `ValueError` (a configuration error) instead. -/
theorem pipeline_url_spec (s : Str) :
    (∀ org name : Str, org ≠ [] → name ≠ [] → '/' ∉ org → '/' ∉ name →
      s = org ++ '/' :: name → pipeline_url s = .ok (buildUrl org name)) ∧
    ((s.count '/' = 0 ∨ 2 ≤ s.count '/' ∨ s.head? = some '/' ∨ s.getLast? = some '/') →
      ∃ msg, pipeline_url s = .error (.valueError msg)) := by
  constructor
  · intro org name horg hname hso hsn hs
    subst hs
    rw [pipeline_url, splitOnce_append org name hso]
    have h1 : org.isEmpty = false := by simp [List.isEmpty_iff, horg]
    have h2 : name.isEmpty = false := by simp [List.isEmpty_iff, hname]
    simp [h1, h2, hsn]
  · intro hbad
    rcases hsplit : splitOnce s with _ | ⟨a, b⟩
    · exact ⟨_, by rw [pipeline_url, hsplit]⟩
    · obtain ⟨hs, hna⟩ := splitOnce_some hsplit
      subst hs
      have hca : List.count '/' a = 0 := List.count_eq_zero.mpr hna
      rcases hbad with h0 | h2 | hh | hl
      · rw [List.count_append, List.count_cons_self, hca] at h0
        omega
      · rw [List.count_append, List.count_cons_self, hca] at h2
        have hmem : '/' ∈ b := List.count_pos_iff.mp (by omega)
        refine ⟨"pipeline must be in the form 'organization/pipeline'".toList, ?_⟩
        rw [pipeline_url, hsplit]
        simp [hmem]
      · rcases a with _ | ⟨c, a'⟩
        · exact ⟨"pipeline must be in the form 'organization/pipeline'".toList,
            by rw [pipeline_url, hsplit]; simp⟩
        · rw [List.cons_append, List.head?_cons] at hh
          have : c = '/' := by injection hh
          exact absurd (this ▸ List.mem_cons_self c a') hna
      · rcases b with _ | ⟨d, b'⟩
        · exact ⟨"pipeline must be in the form 'organization/pipeline'".toList,
            by rw [pipeline_url, hsplit]; simp⟩
        · have hlb : (a ++ '/' :: d :: b').getLast? = (d :: b').getLast? := by
            rw [List.getLast?_append]
            have hne : (('/' : Char) :: d :: b').getLast? = (d :: b').getLast? := by
              rw [List.getLast?_cons_cons]
            rw [hne]
            rcases hg : (d :: b').getLast? with _ | x
            · exact absurd hg (by simp [List.getLast?_isSome] at *)
            · rfl
          rw [hlb] at hl
          have hmem : '/' ∈ d :: b' := List.mem_of_mem_getLast? (by rw [hl]; rfl)
          refine ⟨"pipeline must be in the form 'organization/pipeline'".toList, ?_⟩
          rw [pipeline_url, hsplit]
          simp [hmem]

/-- Witness for C1 at the identifier `myorg/mypipe` (well formed) and at
`nosep` (no separator). -/
theorem pipeline_url_spec_witness :
    pipeline_url "myorg/mypipe".toList = .ok (buildUrl "myorg".toList "mypipe".toList) ∧
    (∃ msg, pipeline_url "nosep".toList = .error (.valueError msg)) :=
  ⟨(pipeline_url_spec "myorg/mypipe".toList).1 "myorg".toList "mypipe".toList
      (by decide) (by decide) (by decide) (by decide) (by decide),
   (pipeline_url_spec "nosep".toList).2 (by decide)⟩

theorem waitLoop_exit (url : Str) (polls : Nat → Json) (fuel j : Nat) (bi : Json)
    (tr : List Event) (h : optTruthy (Json.get bi "finished_at".toList) = true) :
    waitLoop url polls fuel bi j tr = some (bi, j, tr) := by
  rw [waitLoop.eq_def]
  dsimp only
  rw [h]
  simp

theorem waitLoop_step (url : Str) (polls : Nat → Json) (fuel j : Nat) (bi : Json)
    (tr : List Event) (h : optTruthy (Json.get bi "finished_at".toList) = false) :
    waitLoop url polls (fuel + 1) bi j tr =
      waitLoop url polls fuel (polls j) (j + 1) (tr ++ [.sleep 15, .httpGet url]) := by
  rw [waitLoop.eq_def]
  dsimp only
  rw [h]
  simp

theorem waitLoop_dead (url : Str) (polls : Nat → Json) (j : Nat) (bi : Json)
    (tr : List Event) (h : optTruthy (Json.get bi "finished_at".toList) = false) :
    waitLoop url polls 0 bi j tr = none := by
  rw [waitLoop.eq_def]
  dsimp only
  rw [h]
  simp

theorem waitLoop_spec (url : Str) (polls : Nat → Json) :
    ∀ (n : Nat) (j fuel : Nat) (bi : Json) (tr : List Event),
      optTruthy (Json.get bi "finished_at".toList) = false →
      (∀ i, i < n - 1 → optTruthy (Json.get (polls (j + i)) "finished_at".toList) = false) →
      optTruthy (Json.get (polls (j + n - 1)) "finished_at".toList) = true →
      1 ≤ n → n ≤ fuel →
      waitLoop url polls fuel bi j tr =
        some (polls (j + n - 1), j + n, tr ++ pollEvents url n) := by
  intro n
  induction n with
  | zero => omega
  | succ m ih =>
    intro j fuel bi tr hbi hrun hfin _ hfuel
    rcases fuel with _ | fuel'
    · omega
    rw [waitLoop_step url polls fuel' j bi tr hbi]
    rcases Nat.eq_zero_or_pos m with hm | hm
    · subst hm
      have hj : j + 1 - 1 = j := by omega
      rw [hj] at hfin
      rw [waitLoop_exit url polls fuel' (j + 1) (polls j) _ hfin, hj]
      rfl
    · have hstep := ih (j + 1) fuel' (polls j) (tr ++ [Event.sleep 15, Event.httpGet url])
        (hrun 0 (by omega))
        (fun i hi => by
          have := hrun (i + 1) (by omega)
          rwa [show j + (i + 1) = j + 1 + i by omega] at this)
        (by rwa [show j + 1 + m - 1 = j + (m + 1) - 1 by omega])
        hm (by omega)
      rw [hstep]
      have h1 : j + 1 + m - 1 = j + (m + 1) - 1 := by omega
      have h2 : j + 1 + m = j + (m + 1) := by omega
      have h3 : tr ++ [Event.sleep 15, Event.httpGet url] ++ pollEvents url m =
          tr ++ pollEvents url (m + 1) := by
        rw [List.append_assoc]
        rfl
      rw [h1, h2, h3]

theorem countGets_pollEvents (url : Str) : ∀ n : Nat,
    (pollEvents url n).countP (fun e => isGetEvent e) = n := by
  intro n
  induction n with
  | zero => rfl
  | succ m ih =>
    simp only [pollEvents, List.countP_cons, ih]
    norm_num [isGetEvent]

/-- C3: when the first `k − 1` poll responses lack a truthy
`finished_at` and the `k`-th carries one, `wait_for_build` issues exactly
`k` GETs to the polling URL — its trace is the waiting notice followed by
`k` repetitions of sleep-15-then-GET, so it sleeps the fixed interval
before each request — and returns the `k`-th response as the final
descriptor. -/
theorem wait_for_build_poll_count (url : Str) (polls : Nat → Json) (k fuel : Nat)
    (hk : 1 ≤ k) (hfuel : k ≤ fuel)
    (hrun : ∀ i, i < k - 1 → optTruthy (Json.get (polls i) "finished_at".toList) = false)
    (hfin : optTruthy (Json.get (polls (k - 1)) "finished_at".toList) = true) :
    wait_for_build url polls fuel =
      some (polls (k - 1), k,
        Event.info "⌛ Waiting for build to finish".toList :: pollEvents url k) ∧
    (pollEvents url k).countP (fun e => isGetEvent e) = k := by
  constructor
  · rw [wait_for_build]
    have h := waitLoop_spec url polls k 0 fuel (Json.obj [])
      [.info "⌛ Waiting for build to finish".toList] rfl
      (fun i hi => by simpa using hrun i hi)
      (by simpa using hfin) hk hfuel
    simpa using h
  · exact countGets_pollEvents url k

/-- Witness for C3: the spec's scenario — trigger still running, first
poll `running` with no finish marker, second poll `passed` with one —
issues exactly two poll GETs and ends with state `passed`. -/
theorem wait_for_build_poll_count_witness :
    wait_for_build specUrl specPolls 10 =
      some (passedResp, 2,
        Event.info "⌛ Waiting for build to finish".toList :: pollEvents specUrl 2) ∧
    (pollEvents specUrl 2).countP (fun e => isGetEvent e) = 2 ∧
    pyGetItem passedResp "state".toList = .ok (.str "passed".toList) := by
  have h := wait_for_build_poll_count specUrl specPolls 2 10
    (by decide) (by decide)
    (by intro i hi
        have : i = 0 := by omega
        subst this
        rfl)
    (by rfl)
  exact ⟨h.1, h.2, rfl⟩

theorem waitLoop_result (url : Str) (polls : Nat → Json) :
    ∀ (fuel j : Nat) (bi0 : Json) (tr0 : List Event) (bi : Json) (k : Nat) (tr : List Event),
      optTruthy (Json.get bi0 "finished_at".toList) = false →
      waitLoop url polls fuel bi0 j tr0 = some (bi, k, tr) →
      j < k ∧ bi = polls (k - 1) ∧ Event.httpGet url ∈ tr := by
  intro fuel
  induction fuel with
  | zero =>
    intro j bi0 tr0 bi k tr h0 h
    rw [waitLoop_dead url polls j bi0 tr0 h0] at h
    exact absurd h (by simp)
  | succ f ih =>
    intro j bi0 tr0 bi k tr h0 h
    rw [waitLoop_step url polls f j bi0 tr0 h0] at h
    cases hfin : optTruthy (Json.get (polls j) "finished_at".toList) with
    | true =>
      rw [waitLoop_exit url polls f (j + 1) (polls j) _ hfin] at h
      simp only [Option.some.injEq, Prod.mk.injEq] at h
      obtain ⟨hbi, hk, htr⟩ := h
      refine ⟨by omega, ?_, ?_⟩
      · rw [← hbi, ← hk]
        simp
      · rw [← htr]
        simp
    | false =>
      obtain ⟨hlt, hbi, hmem⟩ := ih (j + 1) (polls j) _ bi k tr hfin h
      exact ⟨by omega, hbi, hmem⟩

/-- C4: whenever `wait_for_build` returns, it has issued at least one GET
poll to the polling URL, and the descriptor it returns is the response of
its last poll — the in-memory descriptor starts out as the empty dict, so
the determination never consults the trigger response's state or
`finished_at` fields (the trigger descriptor is not even an argument). -/
theorem wait_for_build_always_polls (url : Str) (polls : Nat → Json) (fuel : Nat)
    (bi : Json) (k : Nat) (tr : List Event)
    (h : wait_for_build url polls fuel = some (bi, k, tr)) :
    1 ≤ k ∧ bi = polls (k - 1) ∧ Event.httpGet url ∈ tr := by
  rw [wait_for_build] at h
  obtain ⟨hlt, hbi, hmem⟩ := waitLoop_result url polls fuel 0 (Json.obj []) _ bi k tr rfl h
  exact ⟨hlt, hbi, hmem⟩

/-- Witness for C4: a run whose very first poll response is already
finished still polls once — and does so even though the i-th poll oracle
here is the constant `passedResp`, mimicking a trigger response that
already looked finished. -/
theorem wait_for_build_always_polls_witness :
    1 ≤ 1 ∧ passedResp = (fun _ => passedResp : Nat → Json) (1 - 1) ∧
      Event.httpGet specUrl ∈
        [Event.info "⌛ Waiting for build to finish".toList,
         Event.sleep 15, Event.httpGet specUrl] :=
  wait_for_build_always_polls specUrl (fun _ => passedResp) 5 passedResp 1
    [Event.info "⌛ Waiting for build to finish".toList,
     Event.sleep 15, Event.httpGet specUrl] (by rfl)

theorem outputNamed_ok (bi : Json) :
    ∀ (ns : List Str) (evs : List Event),
      outputNamed bi ns = (evs, none) →
      (∀ n, n ∈ ns → ∃ v, pyGetItem bi n = .ok v ∧ Event.setOutput n (pyStr v) ∈ evs) ∧
      Event.setOutput "data".toList (json_dumps bi) ∈ evs ∧
      (∀ e, e ∈ evs → ∃ n v, e = Event.setOutput n v) := by
  intro ns
  induction ns with
  | nil =>
    intro evs h
    simp only [outputNamed, Prod.mk.injEq] at h
    obtain ⟨hevs, -⟩ := h
    subst hevs
    refine ⟨by simp, by simp, ?_⟩
    intro e he
    simp at he
    exact ⟨_, _, he⟩
  | cons n rest ih =>
    intro evs h
    rw [outputNamed] at h
    rcases hv : pyGetItem bi n with e | v <;> rw [hv] at h
    · simp at h
    · rcases hrest : outputNamed bi rest with ⟨evs', err⟩
      rw [hrest] at h
      simp only [Prod.mk.injEq] at h
      obtain ⟨hevs, herr⟩ := h
      subst herr
      subst hevs
      obtain ⟨hall, hdata, hshape⟩ := ih evs' hrest
      refine ⟨?_, List.mem_cons_of_mem _ hdata, ?_⟩
      · intro m hm
        rcases List.mem_cons.mp hm with hm | hm
        · subst hm
          exact ⟨v, hv, List.mem_cons_self _ _⟩
        · obtain ⟨w, hw, hmem⟩ := hall m hm
          exact ⟨w, hw, List.mem_cons_of_mem _ hmem⟩
      · intro e he
        rcases List.mem_cons.mp he with he | he
        · exact ⟨_, _, he⟩
        · exact hshape e he

theorem countP_zero_of_setOutput {evs : List Event} {p : Event → Bool}
    (hshape : ∀ e, e ∈ evs → ∃ n v, e = Event.setOutput n v)
    (hp : ∀ n v, p (Event.setOutput n v) = false) :
    evs.countP (fun e => p e) = 0 := by
  rw [List.countP_eq_zero]
  intro e he
  obtain ⟨n, v, rfl⟩ := hshape e he
  simp [hp]

/-- C7: in async mode, when the trigger response is a descriptor with
state `scheduled` (its reported fields present, and the pipeline
identifier well formed so the trigger URL can be built), the run emits
all six named outputs, ends without any failure, and issues zero poll
GETs — the only HTTP request in its trace is the single trigger POST. -/
theorem async_run_no_polls (ctx : ActionContext) (trig : Json) (polls : Nat → Json)
    (fuel : Nat) (url : Str) (evs : List Event)
    (hasync : ctx.is_async = true)
    (hurl : pipeline_url ctx.pipeline = .ok url)
    (hstate : pyGetItem trig "state".toList = .ok (.str "scheduled".toList))
    (hweb : ∃ v, pyGetItem trig "web_url".toList = .ok v)
    (hout : output_build_info trig = (evs, none)) :
    ∃ tr, mainRun ctx trig polls fuel = some (tr, .ok ()) ∧
      tr.countP (fun e => isGetEvent e) = 0 ∧
      tr.countP (fun e => isPostEvent e) = 1 ∧
      (∀ n, n ∈ outputFields → ∃ v, Event.setOutput n v ∈ tr) ∧
      Event.setOutput "data".toList (json_dumps trig) ∈ tr := by
  obtain ⟨w, hw⟩ := hweb
  have htrig : ∃ body, trigger_pipeline ctx trig = .ok (trig, [.httpPost url body]) := by
    rw [trigger_pipeline, hurl]
    exact ⟨_, rfl⟩
  obtain ⟨body, htrig⟩ := htrig
  have hreport : report_build_state trig = .ok (.str "scheduled".toList,
      .info (state_emoji (.str "scheduled".toList) ++ " Build ".toList ++
        pyStr (.str "scheduled".toList) ++ " → ".toList ++ pyStr w)) := by
    rw [report_build_state, hstate, hw]
  have hacc : stateAccepted (.str "scheduled".toList) = true := by decide
  obtain ⟨hall, hdata, hshape⟩ := outputNamed_ok trig outputFields evs hout
  refine ⟨(([Event.info ("🪁 Triggering ".toList ++ ctx.pipeline ++ " for ".toList ++
      ctx.branch ++ ['@'] ++ ctx.commit)] ++ [Event.httpPost url body]) ++
      [Event.info (state_emoji (.str "scheduled".toList) ++ " Build ".toList ++
        pyStr (.str "scheduled".toList) ++ " → ".toList ++ pyStr w)]) ++ evs,
    ?_, ?_, ?_, ?_, ?_⟩
  · simp only [mainRun, htrig, hreport, hasync, if_true, mainFinish, hout, hacc]
  · simp only [List.countP_append, List.countP_cons, List.countP_nil]
    rw [countP_zero_of_setOutput hshape (fun n v => rfl)]
    rfl
  · simp only [List.countP_append, List.countP_cons, List.countP_nil]
    rw [countP_zero_of_setOutput hshape (fun n v => rfl)]
    rfl
  · intro n hn
    obtain ⟨v, -, hmem⟩ := hall n hn
    exact ⟨pyStr v, by simp [hmem]⟩
  · simp only [List.mem_append]
    right
    exact hdata

/-- Witness for C7 at a concrete async context and a `scheduled` trigger
response. -/
theorem async_run_no_polls_witness :
    ∃ tr, mainRun specCtxAsync scheduledResp (fun _ => passedResp) 0 = some (tr, .ok ()) ∧
      tr.countP (fun e => isGetEvent e) = 0 ∧
      tr.countP (fun e => isPostEvent e) = 1 ∧
      (∀ n, n ∈ outputFields → ∃ v, Event.setOutput n v ∈ tr) ∧
      Event.setOutput "data".toList (json_dumps scheduledResp) ∈ tr :=
  async_run_no_polls specCtxAsync scheduledResp (fun _ => passedResp) 0
    (buildUrl "myorg".toList "mypipe".toList)
    ((output_build_info scheduledResp).1)
    rfl rfl rfl
    ⟨.str "https://buildkite.com/myorg/mypipe/builds/7".toList, rfl⟩
    rfl

theorem pyGetItem_error_shape {j : Json} {k : Str} {e : PyError}
    (h : pyGetItem j k = .error e) : e = .keyError k ∨ ∃ m, e = .typeError m := by
  rcases j with _ | _ | _ | _ | _ | fs <;> simp [pyGetItem] at h
  all_goals try exact Or.inr ⟨_, h.symm⟩
  rcases hf : jsonFind fs k with _ | v <;> rw [hf] at h
  · simp at h
    exact Or.inl h.symm
  · simp at h

theorem pipeline_url_error_shape {p : Str} {e : PyError}
    (h : pipeline_url p = .error e) : ∃ m, e = .valueError m := by
  rw [pipeline_url] at h
  rcases hs : splitOnce p with _ | ⟨a, b⟩ <;> rw [hs] at h
  · simp at h
    exact ⟨_, h.symm⟩
  · dsimp only at h
    by_cases hc : a.isEmpty || b.isEmpty || b.contains '/'
    · rw [if_pos hc] at h
      simp at h
      exact ⟨_, h.symm⟩
    · rw [if_neg hc] at h
      simp at h

theorem trigger_pipeline_error_shape {ctx : ActionContext} {resp : Json} {e : PyError}
    (h : trigger_pipeline ctx resp = .error e) : ∃ m, e = .valueError m := by
  rw [trigger_pipeline] at h
  rcases hu : pipeline_url ctx.pipeline with e' | u <;> rw [hu] at h
  · simp at h
    exact h ▸ pipeline_url_error_shape hu
  · simp at h

theorem report_build_state_error_shape {bi : Json} {e : PyError}
    (h : report_build_state bi = .error e) :
    (∃ k, e = .keyError k) ∨ ∃ m, e = .typeError m := by
  rw [report_build_state] at h
  rcases h1 : pyGetItem bi "state".toList with e1 | st <;> rw [h1] at h
  · simp at h
    subst h
    rcases pyGetItem_error_shape h1 with h' | h'
    · exact Or.inl ⟨_, h'⟩
    · exact Or.inr h'
  · rcases h2 : pyGetItem bi "web_url".toList with e2 | w <;> rw [h2] at h
    · simp at h
      subst h
      rcases pyGetItem_error_shape h2 with h' | h'
      · exact Or.inl ⟨_, h'⟩
      · exact Or.inr h'
    · simp at h

theorem outputNamed_error_shape (bi : Json) :
    ∀ (ns : List Str) (evs : List Event) (e : PyError),
      outputNamed bi ns = (evs, some e) →
      (∃ k, e = .keyError k) ∨ ∃ m, e = .typeError m := by
  intro ns
  induction ns with
  | nil =>
    intro evs e h
    simp [outputNamed] at h
  | cons n rest ih =>
    intro evs e h
    rw [outputNamed] at h
    rcases hv : pyGetItem bi n with e' | v <;> rw [hv] at h
    · simp at h
      obtain ⟨-, he⟩ := h
      subst he
      rcases pyGetItem_error_shape hv with h' | h'
      · exact Or.inl ⟨_, h'⟩
      · exact Or.inr h'
    · rcases hrest : outputNamed bi rest with ⟨evs', err⟩
      rw [hrest] at h
      simp only [Prod.mk.injEq] at h
      obtain ⟨-, herr⟩ := h
      exact ih evs' e (by rw [hrest, herr])

theorem mainFinish_runtimeError {bi state : Json} {tr0 tr : List Event} {msg : Str}
    (h : mainFinish bi state tr0 = (tr, .error (.runtimeError msg))) :
    msg = failMsg state ∧ stateAccepted state = false ∧
    ∃ evs, output_build_info bi = (evs, none) ∧ tr = tr0 ++ evs := by
  rw [mainFinish] at h
  rcases hout : output_build_info bi with ⟨evs, err⟩
  rw [hout] at h
  dsimp only at h
  rcases err with _ | e
  · by_cases hacc : stateAccepted state
    · rw [if_pos hacc] at h
      simp at h
    · rw [if_neg hacc] at h
      simp only [Prod.mk.injEq] at h
      obtain ⟨htr, hres⟩ := h
      have hm : failMsg state = msg := by
        injection hres with h1
        injection h1
      exact ⟨hm.symm, by simpa using hacc, evs, rfl, htr.symm⟩
  · simp only [Prod.mk.injEq] at h
    obtain ⟨-, hres⟩ := h
    have he : e = .runtimeError msg := by injection hres
    rcases outputNamed_error_shape bi outputFields evs e (by rw [← hout]; rfl) with ⟨k, hk⟩ | ⟨m, hm⟩
    · rw [hk] at he
      exact absurd he (by simp)
    · rw [hm] at he
      exact absurd he (by simp)

theorem report_build_state_ok {bi st : Json} {ev : Event}
    (h : report_build_state bi = .ok (st, ev)) :
    pyGetItem bi "state".toList = .ok st := by
  rw [report_build_state] at h
  rcases h1 : pyGetItem bi "state".toList with e1 | st' <;> rw [h1] at h
  · simp at h
  · rcases h2 : pyGetItem bi "web_url".toList with e2 | w <;> rw [h2] at h
    · simp at h
    · simp at h
      rw [h.1]

theorem failMsg_infix (st : Json) : pyStr st <:+: failMsg st :=
  ⟨"Pipeline failed with state '".toList, ['\''], by rw [failMsg]⟩

theorem mainFinish_eq {bi : Json} (state : Json) (tr0 : List Event) {evs : List Event}
    (hout : output_build_info bi = (evs, none)) :
    mainFinish bi state tr0 = (tr0 ++ evs,
      if stateAccepted state then Except.ok () else .error (.runtimeError (failMsg state))) := by
  rw [mainFinish, hout]
  dsimp only
  by_cases h : stateAccepted state
  · rw [if_pos h, if_pos h]
  · rw [if_neg h, if_neg h]

theorem mainFinish_conclusions {bi state : Json} {tr0 tr : List Event} {msg : Str}
    (hfin : mainFinish bi state tr0 = (tr, .error (.runtimeError msg)))
    (hstate : pyGetItem bi "state".toList = .ok state) :
    msg = failMsg state ∧ stateAccepted state = false ∧ pyStr state <:+: msg ∧
      Event.setOutput "state".toList (pyStr state) ∈ tr ∧
      (∀ n, n ∈ outputFields → ∃ v, Event.setOutput n v ∈ tr) ∧
      (∃ d, Event.setOutput "data".toList d ∈ tr) := by
  obtain ⟨hmsg, hacc, evs, hout, htr⟩ := mainFinish_runtimeError hfin
  obtain ⟨hall, hdata, -⟩ := outputNamed_ok bi outputFields evs hout
  subst htr
  subst hmsg
  refine ⟨rfl, hacc, failMsg_infix state, ?_, ?_, ?_⟩
  · obtain ⟨v, hv, hmem⟩ := hall "state".toList (by simp [outputFields])
    rw [hstate] at hv
    have : state = v := by injection hv
    subst this
    exact List.mem_append_right _ hmem
  · intro n hn
    obtain ⟨v, -, hmem⟩ := hall n hn
    exact ⟨pyStr v, List.mem_append_right _ hmem⟩
  · exact ⟨json_dumps bi, List.mem_append_right _ hdata⟩

/-- C2: for every run that reaches the output-and-check tail — its final
build descriptor is `bi`, carrying state `st`, with the reported fields
present — the run's trace ends with the six `::set-output` events for
`bi` (the five named fields at their reported values, including `state`
at `st`, plus `data`), and only afterwards the run terminates: with the
`RuntimeError` carrying `failMsg st` — whose message embeds the offending
state's string — exactly when `st` lies outside the accepted set
`scheduled`/`running`/`passed`, and with success when `st` is accepted,
so an accepted final state never raises the failure. -/
theorem main_failure_after_outputs (ctx : ActionContext) (trig : Json)
    (polls : Nat → Json) (fuel : Nat) (bi st : Json) (evs : List Event)
    (hbi : finalDescriptor ctx trig polls fuel = some bi)
    (hstate : pyGetItem bi "state".toList = .ok st)
    (hout : output_build_info bi = (evs, none)) :
    ∃ tr0, mainRun ctx trig polls fuel = some (tr0 ++ evs,
        if stateAccepted st then Except.ok () else .error (.runtimeError (failMsg st))) ∧
      (∀ n, n ∈ outputFields → ∃ v, pyGetItem bi n = .ok v ∧
        Event.setOutput n (pyStr v) ∈ evs) ∧
      Event.setOutput "state".toList (pyStr st) ∈ evs ∧
      Event.setOutput "data".toList (json_dumps bi) ∈ evs ∧
      pyStr st <:+: failMsg st := by
  obtain ⟨hall, hdata, -⟩ := outputNamed_ok bi outputFields evs hout
  have hstout : Event.setOutput "state".toList (pyStr st) ∈ evs := by
    obtain ⟨v, hv, hmem⟩ := hall "state".toList (by simp [outputFields])
    rw [hstate] at hv
    have hveq : st = v := by injection hv
    subst hveq
    exact hmem
  rw [finalDescriptor] at hbi
  rw [mainRun]
  rcases htrig : trigger_pipeline ctx trig with e | ⟨bi1, trigEvs⟩
  · rw [htrig] at hbi
    dsimp only at hbi
    exact absurd hbi (by simp)
  · rw [htrig] at hbi
    dsimp only at hbi ⊢
    rcases hrep : report_build_state bi1 with e | ⟨st1, ev1⟩
    · rw [hrep] at hbi
      dsimp only at hbi
      exact absurd hbi (by simp)
    · rw [hrep] at hbi
      dsimp only at hbi ⊢
      by_cases hasync : ctx.is_async = true
      · rw [hasync] at hbi ⊢
        simp only [if_true] at hbi ⊢
        have hbieq : bi1 = bi := by injection hbi
        subst hbieq
        have hsteq : st1 = st := by
          have h1 := report_build_state_ok hrep
          rw [hstate] at h1
          injection h1 with h1
          exact h1.symm
        subst hsteq
        rw [mainFinish_eq st1 _ hout]
        exact ⟨_, rfl, hall, hstout, hdata, failMsg_infix _⟩
      · rw [Bool.not_eq_true] at hasync
        rw [hasync] at hbi ⊢
        simp only [Bool.false_eq_true, if_false] at hbi ⊢
        rcases hurl : pyGetItem bi1 "url".toList with e | uj
        · rw [hurl] at hbi
          dsimp only at hbi
          exact absurd hbi (by simp)
        · rw [hurl] at hbi
          dsimp only at hbi ⊢
          rcases uj with _ | b | i | u | xs | fs
          · dsimp only at hbi
            exact absurd hbi (by simp)
          · dsimp only at hbi
            exact absurd hbi (by simp)
          · dsimp only at hbi
            exact absurd hbi (by simp)
          · dsimp only at hbi ⊢
            rcases hwait : wait_for_build u polls fuel with _ | ⟨bi2, k2, wEvs⟩
            · rw [hwait] at hbi
              dsimp only at hbi
              exact absurd hbi (by simp)
            · rw [hwait] at hbi
              dsimp only at hbi ⊢
              rcases hrep2 : report_build_state bi2 with e | ⟨st2, ev2⟩
              · rw [hrep2] at hbi
                dsimp only at hbi
                exact absurd hbi (by simp)
              · rw [hrep2] at hbi
                dsimp only at hbi ⊢
                have hbieq : bi2 = bi := by injection hbi
                subst hbieq
                have hsteq : st2 = st := by
                  have h1 := report_build_state_ok hrep2
                  rw [hstate] at h1
                  injection h1 with h1
                  exact h1.symm
                subst hsteq
                rw [mainFinish_eq st2 _ hout]
                exact ⟨_, rfl, hall, hstout, hdata, failMsg_infix _⟩
          · dsimp only at hbi
            exact absurd hbi (by simp)
          · dsimp only at hbi
            exact absurd hbi (by simp)

/-- Witness for C2: a synchronous run whose single poll response is
`failed` with a finish marker — the final descriptor is that failed
response, its state is outside the accepted set, all six outputs end the
trace, and the run terminates with the `RuntimeError` carrying `failed`. -/
theorem main_failure_after_outputs_witness :
    stateAccepted (Json.str "failed".toList) = false ∧
    ∃ tr0, mainRun specCtxSync runningResp (fun _ => failedResp) 5 = some
        (tr0 ++ (output_build_info failedResp).1,
         if stateAccepted (Json.str "failed".toList) then Except.ok ()
         else .error (.runtimeError (failMsg (Json.str "failed".toList)))) ∧
      (∀ n, n ∈ outputFields → ∃ v, pyGetItem failedResp n = .ok v ∧
        Event.setOutput n (pyStr v) ∈ (output_build_info failedResp).1) ∧
      Event.setOutput "state".toList (pyStr (Json.str "failed".toList)) ∈
        (output_build_info failedResp).1 ∧
      Event.setOutput "data".toList (json_dumps failedResp) ∈
        (output_build_info failedResp).1 ∧
      pyStr (Json.str "failed".toList) <:+: failMsg (Json.str "failed".toList) :=
  ⟨by decide,
   main_failure_after_outputs specCtxSync runningResp (fun _ => failedResp) 5
     failedResp (Json.str "failed".toList) ((output_build_info failedResp).1)
     rfl rfl rfl⟩

theorem from_env_ok_inv {env : Env} {event : Json} {ctx : ActionContext}
    (h : ActionContext.from_env env event = .ok ctx) :
    orFallback (envGet env "INPUT_BRANCH".toList) (ActionContext.branchFromEnv env) =
      .ok ctx.branch ∧
    orFallback (envGet env "INPUT_COMMIT".toList) (envItem env "GITHUB_SHA".toList) =
      .ok ctx.commit ∧
    json_loads (extraEnvText env) = .ok ctx.env := by
  rw [ActionContext.from_env] at h
  rcases h0 : envItem env "GITHUB_EVENT_PATH".toList with e | p0 <;>
    rw [h0] at h <;> dsimp only at h
  · exact absurd h (by simp)
  rcases h1 : envItem env "INPUT_ACCESS_TOKEN".toList with e | tok <;>
    rw [h1] at h <;> dsimp only at h
  · exact absurd h (by simp)
  rcases h2 : envItem env "INPUT_PIPELINE".toList with e | pl <;>
    rw [h2] at h <;> dsimp only at h
  · exact absurd h (by simp)
  rcases h3 : orFallback (envGet env "INPUT_BRANCH".toList) (ActionContext.branchFromEnv env)
      with e | br <;> rw [h3] at h <;> dsimp only at h
  · exact absurd h (by simp)
  rcases h4 : orFallback (envGet env "INPUT_COMMIT".toList) (envItem env "GITHUB_SHA".toList)
      with e | cm <;> rw [h4] at h <;> dsimp only at h
  · exact absurd h (by simp)
  rcases h5 : envItem env "INPUT_MESSAGE".toList with e | m <;>
    rw [h5] at h <;> dsimp only at h
  · exact absurd h (by simp)
  rcases h6 : ActionContext.pullRequestFromEvent event with e | pr <;>
    rw [h6] at h <;> dsimp only at h
  · exact absurd h (by simp)
  rcases h7 : json_loads (extraEnvText env) with e | ev <;>
    rw [h7] at h <;> dsimp only at h
  · exact absurd h (by simp)
  injection h with h
  subst h
  exact ⟨rfl, rfl, rfl⟩

/-- C5: branch resolution is a pure function of the explicit override,
the pull-request head-ref value and the ref value, with the precedence:
a present (truthy) override wins; else a present (truthy) head ref; else
the ref with the `refs/heads/` prefix stripped when it has that prefix;
else the raw ref unchanged.  Presence is Python truthiness (an
empty-string value counts as absent, see C10). -/
theorem branch_resolution_correct (env : Env) (event : Json) (ctx : ActionContext)
    (h : ActionContext.from_env env event = .ok ctx) :
    (∀ b, envGet env "INPUT_BRANCH".toList = some b → b ≠ [] → ctx.branch = b) ∧
    (optStrFalsy (envGet env "INPUT_BRANCH".toList) = true →
      ∀ hr, envGet env "GITHUB_HEAD_REF".toList = some hr → hr ≠ [] → ctx.branch = hr) ∧
    (optStrFalsy (envGet env "INPUT_BRANCH".toList) = true →
      optStrFalsy (envGet env "GITHUB_HEAD_REF".toList) = true →
      ∀ r, envGet env "GITHUB_REF".toList = some r →
        ctx.branch =
          if "refs/heads/".toList.isPrefixOf r then r.drop "refs/heads/".toList.length
          else r) := by
  obtain ⟨hbr, -, -⟩ := from_env_ok_inv h
  refine ⟨?_, ?_, ?_⟩
  · intro b hb hbne
    rw [hb, orFallback] at hbr
    rw [if_neg (by simpa [List.isEmpty_iff] using hbne)] at hbr
    injection hbr with h'
    exact h'.symm
  · intro hfalsy hr hhr hhrne
    have hfb : ActionContext.branchFromEnv env = .ok ctx.branch := by
      rcases hb : envGet env "INPUT_BRANCH".toList with _ | b <;> rw [hb] at hbr
      · exact hbr
      · rw [hb, optStrFalsy] at hfalsy
        rw [orFallback, if_pos hfalsy] at hbr
        exact hbr
    rw [ActionContext.branchFromEnv, hhr] at hfb
    dsimp only at hfb
    have hie : hr.isEmpty = false := by simpa [List.isEmpty_iff] using hhrne
    rw [hie] at hfb
    simp only [Bool.false_eq_true, if_false] at hfb
    injection hfb with h'
    exact h'.symm
  · intro hfalsy1 hfalsy2 r hr
    have hfb : ActionContext.branchFromEnv env = .ok ctx.branch := by
      rcases hb : envGet env "INPUT_BRANCH".toList with _ | b <;> rw [hb] at hbr
      · exact hbr
      · rw [hb, optStrFalsy] at hfalsy1
        rw [orFallback, if_pos hfalsy1] at hbr
        exact hbr
    rw [ActionContext.branchFromEnv] at hfb
    have hfb2 :
        (match envGet env "GITHUB_REF".toList with
          | none => Except.error (PyError.keyError "GITHUB_REF".toList)
          | some git_ref =>
            if "refs/heads/".toList.isPrefixOf git_ref then
              Except.ok (git_ref.drop "refs/heads/".toList.length)
            else Except.ok git_ref) = Except.ok ctx.branch := by
      rcases hhr : envGet env "GITHUB_HEAD_REF".toList with _ | hrv <;> rw [hhr] at hfb <;>
        dsimp only at hfb
      · exact hfb
      · rw [hhr, optStrFalsy] at hfalsy2
        rw [hfalsy2] at hfb
        simp only [if_true] at hfb
        exact hfb
    rw [hr] at hfb2
    dsimp only at hfb2
    cases hp : "refs/heads/".toList.isPrefixOf r <;> rw [hp] at hfb2 <;>
      simp only [hp, Bool.false_eq_true, if_false, if_true]
    · simp only [Bool.false_eq_true, if_false] at hfb2
      injection hfb2 with h'
      exact h'.symm
    · simp only [if_true] at hfb2
      injection hfb2 with h'
      exact h'.symm

/-- Witness for C5: ref `refs/heads/main` with no override and no head
ref resolves to `main`; ref `refs/tags/v1` stays unchanged. -/
theorem branch_resolution_correct_witness :
    (∃ ctx, ActionContext.from_env envBase (Json.obj []) = .ok ctx ∧
      ctx.branch = "main".toList) ∧
    (∃ ctx, ActionContext.from_env envTags (Json.obj []) = .ok ctx ∧
      ctx.branch = "refs/tags/v1".toList) := by
  constructor
  · refine ⟨_, rfl, ?_⟩
    have h := (branch_resolution_correct envBase (Json.obj []) _ rfl).2.2
      (by decide) (by decide) "refs/heads/main".toList (by decide)
    rw [h]
    decide
  · refine ⟨_, rfl, ?_⟩
    have h := (branch_resolution_correct envTags (Json.obj []) _ rfl).2.2
      (by decide) (by decide) "refs/tags/v1".toList (by decide)
    rw [h]
    decide

/-- C10: an explicit branch or commit override that is present in the
environment but equal to the empty string is treated exactly like an
absent one — the branch comes from the head-ref/ref fallback helper and
the commit from the environment's recorded `GITHUB_SHA`, so an
empty-string override never becomes the resolved value. -/
theorem empty_override_falls_back (env : Env) (event : Json) (ctx : ActionContext)
    (h : ActionContext.from_env env event = .ok ctx) :
    (envGet env "INPUT_BRANCH".toList = some [] →
      ActionContext.branchFromEnv env = .ok ctx.branch) ∧
    (envGet env "INPUT_COMMIT".toList = some [] →
      envGet env "GITHUB_SHA".toList = some ctx.commit) := by
  obtain ⟨hbr, hcm, -⟩ := from_env_ok_inv h
  constructor
  · intro hb
    rw [hb, orFallback] at hbr
    simpa using hbr
  · intro hc
    rw [hc, orFallback] at hcm
    simp only [List.isEmpty_nil, if_true] at hcm
    rw [envItem] at hcm
    rcases hs : envGet env "GITHUB_SHA".toList with _ | sha <;> rw [hs] at hcm
    · simp at hcm
    · simp at hcm
      rw [hcm]

/-- Witness for C10 at an environment carrying empty-string branch and
commit overrides: the branch resolves through the ref fallback and the
commit through `GITHUB_SHA`. -/
theorem empty_override_falls_back_witness :
    ∃ ctx, ActionContext.from_env envEmptyOverride (Json.obj []) = .ok ctx ∧
      ActionContext.branchFromEnv envEmptyOverride = .ok ctx.branch ∧
      envGet envEmptyOverride "GITHUB_SHA".toList = some ctx.commit ∧
      ctx.branch = "main".toList ∧ ctx.commit = "abc123".toList := by
  refine ⟨_, rfl, ?_, ?_, rfl, rfl⟩
  · exact (empty_override_falls_back envEmptyOverride (Json.obj []) _ rfl).1 rfl
  · exact (empty_override_falls_back envEmptyOverride (Json.obj []) _ rfl).2 rfl

/-- C6: parsing of the extra-environment input during context
construction: the object text yields the corresponding mapping, an absent
or empty input yields the empty mapping, and malformed JSON makes
construction fail (a `JSONDecodeError`, i.e. a configuration error, when
the parse is reached; the resulting context is never produced). -/
theorem extra_env_parsing (env : Env) (event : Json) :
    (∀ ctx, envGet env "INPUT_ENV".toList = some ('\x7b' :: "\"A\":\"1\"".toList ++ ['\x7d']) →
      ActionContext.from_env env event = .ok ctx →
      ctx.env = Json.obj [("A".toList, Json.str "1".toList)]) ∧
    (∀ ctx, (envGet env "INPUT_ENV".toList = none ∨ envGet env "INPUT_ENV".toList = some []) →
      ActionContext.from_env env event = .ok ctx → ctx.env = Json.obj []) ∧
    (envGet env "INPUT_ENV".toList = some ('\x7b' :: "bad json".toList) →
      ∃ e, ActionContext.from_env env event = .error e) := by
  refine ⟨?_, ?_, ?_⟩
  · intro ctx hin h
    obtain ⟨-, -, hje⟩ := from_env_ok_inv h
    rw [extraEnvText, hin] at hje
    dsimp only at hje
    rw [if_neg (by simp)] at hje
    have hval : json_loads ('\x7b' :: "\"A\":\"1\"".toList ++ ['\x7d']) =
        .ok (Json.obj [("A".toList, Json.str "1".toList)]) := by rfl
    rw [hval] at hje
    injection hje with h'
    exact h'.symm
  · intro ctx hin h
    obtain ⟨-, -, hje⟩ := from_env_ok_inv h
    have htext : extraEnvText env = ['\x7b', '\x7d'] := by
      rcases hin with hin | hin <;> rw [extraEnvText, hin]
      rfl
    rw [htext] at hje
    have hval : json_loads ['\x7b', '\x7d'] = .ok (Json.obj []) := by rfl
    rw [hval] at hje
    injection hje with h'
    exact h'.symm
  · intro hin
    rcases hfe : ActionContext.from_env env event with e | ctx
    · exact ⟨e, rfl⟩
    · obtain ⟨-, -, hje⟩ := from_env_ok_inv hfe
      rw [extraEnvText, hin] at hje
      dsimp only at hje
      rw [if_neg (by simp)] at hje
      have hval : json_loads ('\x7b' :: "bad json".toList) =
          .error (.valueError "Expecting property name".toList) := by rfl
      rw [hval] at hje
      exact absurd hje (by simp)

/-- Witness for C6 at the three concrete inputs of the spec sentence. -/
theorem extra_env_parsing_witness :
    (∃ ctx, ActionContext.from_env envObjInput (Json.obj []) = .ok ctx ∧
      ctx.env = Json.obj [("A".toList, Json.str "1".toList)]) ∧
    (∃ ctx, ActionContext.from_env envBase (Json.obj []) = .ok ctx ∧
      ctx.env = Json.obj []) ∧
    (∃ e, ActionContext.from_env envBadInput (Json.obj []) = .error e) := by
  refine ⟨⟨_, rfl, ?_⟩, ⟨_, rfl, ?_⟩, ?_⟩
  · exact (extra_env_parsing envObjInput (Json.obj [])).1 _ rfl rfl
  · exact (extra_env_parsing envBase (Json.obj [])).2.1 _ (Or.inl rfl) rfl
  · exact (extra_env_parsing envBadInput (Json.obj [])).2.2 rfl

/-- C9: an extra-environment input that is valid JSON but not a JSON
object is accepted by context construction, which stores the parsed
non-mapping value as the `env` field rather than raising — the "JSON
object" shape is never enforced; only unparseable text fails. -/
theorem non_object_extra_env_accepted :
    (∃ ctx, ActionContext.from_env envArrInput (Json.obj []) = .ok ctx ∧
      ctx.env = Json.arr [Json.num 1, Json.num 2] ∧ ∀ fs, ctx.env ≠ Json.obj fs) ∧
    (∃ ctx, ActionContext.from_env envStrInput (Json.obj []) = .ok ctx ∧
      ctx.env = Json.str ['x'] ∧ ∀ fs, ctx.env ≠ Json.obj fs) := by
  constructor
  · refine ⟨_, rfl, rfl, ?_⟩
    intro fs hfs
    exact Json.noConfusion hfs
  · refine ⟨_, rfl, rfl, ?_⟩
    intro fs hfs
    exact Json.noConfusion hfs

theorem digitChar_isDigit {d : Nat} (h : d < 10) : (digitChar d).isDigit = true := by
  interval_cases d <;> decide

theorem digitChar_val {d : Nat} (h : d < 10) : (digitChar d).toNat - 48 = d := by
  interval_cases d <;> decide

theorem digitChar_ne_zero {d : Nat} (h : d < 10) (hd : d ≠ 0) : digitChar d ≠ '0' := by
  interval_cases d <;> first | decide | exact absurd rfl hd

theorem natToStr_cons (n : Nat) :
    ∃ c t, natToStr n = c :: t ∧ c.isDigit = true ∧ (n ≠ 0 → c ≠ '0') ∧
      (∀ d, d ∈ t → d.isDigit = true) := by
  by_cases hn : n = 0
  · subst hn
    exact ⟨'0', [], rfl, rfl, fun h => absurd rfl h, by simp⟩
  · have hlt : ∀ d ∈ Nat.digits 10 n, d < 10 :=
      fun d hd => Nat.digits_lt_base (by norm_num) hd
    rcases hrev : (Nat.digits 10 n).reverse with _ | ⟨d0, ds⟩
    · exact absurd (by simpa using congrArg List.reverse hrev)
        (Nat.digits_ne_nil_iff_ne_zero.mpr hn)
    · have hd0 : d0 ∈ Nat.digits 10 n := by
        rw [← List.mem_reverse, hrev]
        exact List.mem_cons_self _ _
      have hdig : Nat.digits 10 n = ds.reverse ++ [d0] := by
        have := congrArg List.reverse hrev
        simpa using this
      have hne : d0 ≠ 0 := by
        have hl := Nat.getLast_digit_ne_zero 10 hn
        have : (Nat.digits 10 n).getLast (Nat.digits_ne_nil_iff_ne_zero.mpr hn) = d0 := by
          rw [← List.getLast_concat (a := d0) ds.reverse]
          congr 1
        rwa [this] at hl
      refine ⟨digitChar d0, ds.map digitChar, ?_, digitChar_isDigit (hlt d0 hd0),
        fun _ => digitChar_ne_zero (hlt d0 hd0) hne, ?_⟩
      · rw [natToStr, if_neg hn, hrev]
        rfl
      · intro d hd
        obtain ⟨d', hd', rfl⟩ := List.mem_map.mp hd
        have : d' ∈ Nat.digits 10 n := by
          rw [← List.mem_reverse, hrev]
          exact List.mem_cons_of_mem _ hd'
        exact digitChar_isDigit (hlt d' this)

theorem foldl_digits (L : List Nat) (hL : ∀ d ∈ L, d < 10) : ∀ a : Nat,
    List.foldl (fun acc c => 10 * acc + (c.toNat - 48)) a (L.reverse.map digitChar) =
      a * 10 ^ L.length + Nat.ofDigits 10 L := by
  induction L with
  | nil => intro a; simp [Nat.ofDigits]
  | cons d L ih =>
    intro a
    have hd : d < 10 := hL d (List.mem_cons_self _ _)
    have hL' : ∀ x ∈ L, x < 10 := fun x hx => hL x (List.mem_cons_of_mem _ hx)
    rw [List.reverse_cons, List.map_append, List.foldl_append, ih hL' a]
    simp only [List.map_cons, List.map_nil, List.foldl_cons, List.foldl_nil,
      Nat.ofDigits_cons, List.length_cons, digitChar_val hd]
    ring

theorem digitsVal_natToStr (n : Nat) : digitsVal (natToStr n) = n := by
  by_cases hn : n = 0
  · subst hn
    rfl
  · rw [natToStr, if_neg hn, digitsVal, foldl_digits _
      (fun d hd => Nat.digits_lt_base (by norm_num) hd) 0]
    simp [Nat.ofDigits_digits]

theorem takeWhile_digits_append {t extra : Str} (ht : ∀ c ∈ t, c.isDigit = true)
    (hex : notDigitStart extra = true) :
    (t ++ extra).takeWhile Char.isDigit = t ∧ (t ++ extra).dropWhile Char.isDigit = extra := by
  induction t with
  | nil =>
    rcases extra with _ | ⟨c, cs⟩
    · simp
    · rw [notDigitStart] at hex
      have hc : c.isDigit = false := by simpa using hex
      simp [List.takeWhile_cons, List.dropWhile_cons, hc]
  | cons c t ih =>
    have hc : c.isDigit = true := ht c (List.mem_cons_self _ _)
    have ht' : ∀ d ∈ t, d.isDigit = true := fun d hd => ht d (List.mem_cons_of_mem _ hd)
    obtain ⟨h1, h2⟩ := ih ht'
    simp [List.takeWhile_cons, List.dropWhile_cons, hc, h1, h2]

theorem parseNat_natToStr (n : Nat) (rest : Str) (hrest : notDigitStart rest = true) :
    parseNat (natToStr n ++ rest) = .ok (n, rest) := by
  by_cases hn : n = 0
  · subst hn
    rw [show natToStr 0 ++ rest = '0' :: rest from rfl]
    simp [parseNat]
  · obtain ⟨c, t, hs, hcdig, hc0, htd⟩ := natToStr_cons n
    rw [hs, List.cons_append, parseNat, if_neg (hc0 hn), if_pos hcdig]
    obtain ⟨htake, hdrop⟩ := takeWhile_digits_append htd hrest
    rw [htake, hdrop, show c :: t = natToStr n from hs.symm, digitsVal_natToStr]

theorem parseNumber_intToStr (i : Int) (rest : Str) (hrest : notDigitStart rest = true) :
    parseNumber (intToStr i ++ rest) = .ok (.num i, rest) := by
  rcases i with n | m
  · obtain ⟨c, t, hs, hcdig, -, -⟩ := natToStr_cons n
    rw [show intToStr (Int.ofNat n) = natToStr n from rfl, hs, List.cons_append, parseNumber]
    have hcm : c ≠ '-' := by
      intro h
      subst h
      exact absurd hcdig (by decide)
    rw [if_neg hcm, ← List.cons_append, ← hs, parseNat_natToStr n rest hrest]
    rfl
  · rw [show intToStr (Int.negSucc m) = '-' :: natToStr (m + 1) from rfl,
      List.cons_append, parseNumber, if_pos rfl, parseNat_natToStr (m + 1) rest hrest]
    have hm : (-((m + 1 : Nat) : Int)) = Int.negSucc m := by
      rw [Int.negSucc_eq]
      push_cast
      ring
    dsimp only
    rw [hm]

theorem parseStringBody_escape (s : Str) (rest : Str) (hs : strPrintable s = true) :
    parseStringBody (escapeStr s ++ '"' :: rest) = .ok (s, rest) := by
  induction s with
  | nil =>
    show parseStringBody ('"' :: rest) = .ok ([], rest)
    rw [parseStringBody.eq_def]
    simp
  | cons c cs ih =>
    have hall := hs
    rw [strPrintable, List.all_cons] at hall
    have hcp : 32 ≤ c.toNat := by
      have := (Bool.and_eq_true _ _).mp hall
      simpa using this.1
    have hcs : strPrintable cs = true := by
      have := (Bool.and_eq_true _ _).mp hall
      exact this.2
    have hesc : escapeStr (c :: cs) = escapeChar c ++ escapeStr cs := rfl
    by_cases hq : c = '"'
    · subst hq
      rw [hesc, show escapeChar '"' = ['\\', '"'] from rfl]
      show parseStringBody ('\\' :: ('"' :: (escapeStr cs ++ '"' :: rest))) = _
      rw [parseStringBody.eq_def]
      dsimp only
      rw [if_neg (show ¬('\\' : Char) = '"' by decide), if_pos rfl]
      rw [show unescapeChar '"' = some '"' from rfl]
      rw [ih hcs]
    · by_cases hb : c = '\\'
      · subst hb
        rw [hesc, show escapeChar '\\' = ['\\', '\\'] from rfl]
        show parseStringBody ('\\' :: ('\\' :: (escapeStr cs ++ '"' :: rest))) = _
        rw [parseStringBody.eq_def]
        dsimp only
        rw [if_neg (show ¬('\\' : Char) = '"' by decide), if_pos rfl]
        rw [show unescapeChar '\\' = some '\\' from rfl]
        rw [ih hcs]
      · rw [hesc, escapeChar, if_neg hq, if_neg hb]
        show parseStringBody (c :: (escapeStr cs ++ '"' :: rest)) = _
        rw [parseStringBody.eq_def]
        dsimp only
        rw [if_neg hq, if_neg hb, if_neg (by omega : ¬ c.toNat < 32)]
        rw [ih hcs]

theorem isDigit_not_ws {c : Char} (h : c.isDigit = true) : isWs c = false := by
  rw [isWs]
  by_cases h1 : c = ' '
  · subst h1
    exact absurd h (by decide)
  by_cases h2 : c = '\t'
  · subst h2
    exact absurd h (by decide)
  by_cases h3 : c = '\n'
  · subst h3
    exact absurd h (by decide)
  by_cases h4 : c = '\r'
  · subst h4
    exact absurd h (by decide)
  simp [h1, h2, h3, h4]

theorem isDigit_ne_rbracket {c : Char} (h : c.isDigit = true) : c ≠ ']' := by
  intro he
  subst he
  exact absurd h (by decide)

theorem skipWs_not_ws {c : Char} (x : Str) (h : isWs c = false) :
    skipWs (c :: x) = c :: x := by
  rw [skipWs, h]
  simp

theorem skipWs_ws {c : Char} (x : Str) (h : isWs c = true) :
    skipWs (c :: x) = skipWs x := by
  rw [skipWs, h]
  simp

theorem parseValue_ws (fuel : Nat) {c : Char} (x : Str) (h : isWs c = true) :
    parseValue fuel (c :: x) = parseValue fuel x := by
  cases fuel with
  | zero => rfl
  | succ f =>
    simp only [parseValue]
    rw [skipWs_ws x h]

theorem parseMembers_ws (fuel : Nat) {c : Char} (x : Str)
    (acc : List (Str × Json)) (h : isWs c = true) :
    parseMembers fuel (c :: x) acc = parseMembers fuel x acc := by
  cases fuel with
  | zero => rfl
  | succ f =>
    simp only [parseMembers]
    rw [skipWs_ws x h]

theorem parseElems_ws (fuel : Nat) {c : Char} (x : Str)
    (acc : List Json) (h : isWs c = true) :
    parseElems fuel (c :: x) acc = parseElems fuel x acc := by
  cases fuel with
  | zero => rfl
  | succ f =>
    simp only [parseElems]
    rw [parseValue_ws f x h]

theorem containsKey_cons (k' : Str) (v' : Json) (fs : List (Str × Json)) (k : Str) :
    containsKey ((k', v') :: fs) k = (decide (k' = k) || containsKey fs k) := by
  simp [containsKey]

theorem containsKey_append (fs gs : List (Str × Json)) (k : Str) :
    containsKey (fs ++ gs) k = (containsKey fs k || containsKey gs k) := by
  simp [containsKey, List.any_append]

theorem insertKey_fresh {fs : List (Str × Json)} {k : Str} {v : Json}
    (h : containsKey fs k = false) : insertKey fs k v = fs ++ [(k, v)] := by
  induction fs with
  | nil => rfl
  | cons kv fs ih =>
    rcases kv with ⟨k', v'⟩
    rw [containsKey_cons] at h
    have h1 : k' ≠ k := by
      intro he
      simp [he] at h
    have h2 : containsKey fs k = false := by
      rcases Bool.or_eq_false_iff.mp h with ⟨-, h2⟩
      exact h2
    rw [insertKey, if_neg h1, ih h2]
    simp

theorem json_dumps_head (j : Json) :
    ∃ c t, json_dumps j = c :: t ∧ isWs c = false ∧ c ≠ ']' := by
  rcases j with _ | b | i | s | xs | fs
  · exact ⟨'n', _, rfl, by decide, by decide⟩
  · cases b
    · exact ⟨'f', _, rfl, by decide, by decide⟩
    · exact ⟨'t', _, rfl, by decide, by decide⟩
  · rcases i with n | m
    · obtain ⟨c, t, hs, hcdig, -, -⟩ := natToStr_cons n
      exact ⟨c, t, by rw [show json_dumps (.num (Int.ofNat n)) = natToStr n from rfl, hs],
        isDigit_not_ws hcdig, isDigit_ne_rbracket hcdig⟩
    · exact ⟨'-', _, by rw [show json_dumps (.num (Int.negSucc m)) =
        '-' :: natToStr (m + 1) from rfl], by decide, by decide⟩
  · exact ⟨'"', _, rfl, by decide, by decide⟩
  · exact ⟨'[', _, rfl, by decide, by decide⟩
  · exact ⟨'\x7b', _, rfl, by decide, by decide⟩

theorem dumpsElems_cons (x : Json) (xs : List Json) :
    dumpsElems (x :: xs) = json_dumps x ++ elemsTail xs := by
  rcases xs with _ | ⟨y, r⟩
  · have ht : elemsTail ([] : List Json) = [] := rfl
    rw [dumpsElems, ht]
    simp
  · have ht : elemsTail (y :: r) = ',' :: ' ' :: dumpsElems (y :: r) := rfl
    rw [dumpsElems, ht]
    simp

theorem dumpsFields_cons (k : Str) (v : Json) (fs : List (Str × Json)) :
    dumpsFields ((k, v) :: fs) =
      '"' :: (escapeStr k ++ '"' :: ':' :: ' ' :: (json_dumps v ++ fieldsTail fs)) := by
  rcases fs with _ | ⟨m, r⟩
  · have ht : fieldsTail ([] : List (Str × Json)) = [] := rfl
    rw [dumpsFields, ht]
    simp
  · have ht : fieldsTail (m :: r) = ',' :: ' ' :: dumpsFields (m :: r) := rfl
    rw [dumpsFields, ht]
    simp

theorem elemsTail_notDigit (xs : List Json) (rest : Str) :
    notDigitStart (elemsTail xs ++ ']' :: rest) = true := by
  rcases xs with _ | ⟨y, r⟩ <;> rfl

theorem fieldsTail_notDigit (fs : List (Str × Json)) (rest : Str) :
    notDigitStart (fieldsTail fs ++ '\x7d' :: rest) = true := by
  rcases fs with _ | ⟨m, r⟩ <;> rfl

theorem litPrefix_head_ne {a c : Char} (as x : Str) (h : c ≠ a) :
    litPrefix (a :: as) (c :: x) = false := by
  rw [litPrefix]
  rw [if_neg (fun he => h he.symm)]

theorem intToStr_cons (i : Int) :
    ∃ c t, intToStr i = c :: t ∧ (c.isDigit = true ∨ c = '-') := by
  rcases i with n | m
  · obtain ⟨c, t, hs, hcdig, -, -⟩ := natToStr_cons n
    exact ⟨c, t, hs, Or.inl hcdig⟩
  · exact ⟨'-', natToStr (m + 1), rfl, Or.inr rfl⟩

theorem isDigit_ne {c a : Char} (h : c.isDigit = true) (ha : a.isDigit = false) : c ≠ a := by
  intro he
  subst he
  rw [h] at ha
  exact Bool.noConfusion ha

theorem dumpsElems_head (x : Json) (xs : List Json) :
    ∃ c t, dumpsElems (x :: xs) = c :: t ∧ isWs c = false ∧ c ≠ ']' := by
  obtain ⟨c, t', hd, hw, hr⟩ := json_dumps_head x
  refine ⟨c, t' ++ elemsTail xs, ?_, hw, hr⟩
  rw [dumpsElems_cons, hd]
  simp

theorem containsKey_eq_false {fs : List (Str × Json)} {k : Str}
    (h : containsKey fs k = false) : ∀ kv ∈ fs, kv.1 ≠ k := by
  intro kv hm he
  rw [containsKey] at h
  rw [List.any_eq_false] at h
  exact absurd (by simpa using he) (h kv hm)

theorem parse_roundtrip : ∀ fuel : Nat,
    (∀ j rest, printableJ j = true → (json_dumps j).length < fuel →
      notDigitStart rest = true →
      parseValue fuel (json_dumps j ++ rest) = .ok (j, rest)) ∧
    (∀ xs rest acc, printableL xs = true → (dumpsElems xs).length + 1 < fuel →
      xs ≠ [] →
      parseElems fuel (dumpsElems xs ++ ']' :: rest) acc = .ok (acc ++ xs, rest)) ∧
    (∀ fs rest acc, printableF fs = true → keysNodup fs = true →
      (∀ kv ∈ fs, containsKey acc kv.1 = false) →
      (dumpsFields fs).length + 1 < fuel → fs ≠ [] →
      parseMembers fuel (dumpsFields fs ++ '\x7d' :: rest) acc = .ok (acc ++ fs, rest)) := by
  intro fuel
  induction fuel with
  | zero =>
    refine ⟨?_, ?_, ?_⟩
    · intro j rest _ hlen _
      omega
    · intro xs rest acc _ hlen _
      omega
    · intro fs rest acc _ _ _ hlen _
      omega
  | succ f ih =>
    obtain ⟨ihV, ihE, ihM⟩ := ih
    refine ⟨?_, ?_, ?_⟩
    · intro j rest hpr hlen hnd
      rcases j with _ | b | i | s | xs | fs
      · rfl
      · cases b <;> rfl
      · obtain ⟨c, t, hs, hc⟩ := intToStr_cons i
        have hcd : isWs c = false ∧ c ≠ '\x7b' ∧ c ≠ '[' ∧ c ≠ '"' ∧
            c ≠ 't' ∧ c ≠ 'f' ∧ c ≠ 'n' := by
          rcases hc with hd | hm
          · exact ⟨isDigit_not_ws hd, isDigit_ne hd (by decide), isDigit_ne hd (by decide),
              isDigit_ne hd (by decide), isDigit_ne hd (by decide), isDigit_ne hd (by decide),
              isDigit_ne hd (by decide)⟩
          · subst hm
            exact ⟨by decide, by decide, by decide, by decide, by decide, by decide, by decide⟩
        obtain ⟨hws, h1, h2, h3, h4, h5, h6⟩ := hcd
        rw [show json_dumps (.num i) = intToStr i from rfl, hs, List.cons_append,
          parseValue.eq_def]
        dsimp only
        rw [skipWs_not_ws _ hws]
        dsimp only
        rw [if_neg h1, if_neg h2, if_neg h3]
        rw [show ("true".toList) = 't' :: "rue".toList from rfl,
          litPrefix_head_ne _ _ h4]
        rw [show ("false".toList) = 'f' :: "alse".toList from rfl,
          litPrefix_head_ne _ _ h5]
        rw [show ("null".toList) = 'n' :: "ull".toList from rfl,
          litPrefix_head_ne _ _ h6]
        simp only [Bool.false_eq_true, if_false]
        rw [← List.cons_append, ← hs, parseNumber_intToStr i rest hnd]
      · rw [show json_dumps (.str s) ++ rest = '"' :: (escapeStr s ++ '"' :: rest) from by
          simp [json_dumps]]
        have hred : parseValue (f + 1) ('"' :: (escapeStr s ++ '"' :: rest)) =
            (match parseStringBody (escapeStr s ++ '"' :: rest) with
             | .error msg => .error msg
             | .ok (body, r) => .ok (.str body, r)) := rfl
        rw [hred, parseStringBody_escape s rest (by rwa [printableJ] at hpr)]
      · rcases xs with _ | ⟨x, xs'⟩
        · rfl
        · rw [show json_dumps (.arr (x :: xs')) ++ rest =
              '[' :: (dumpsElems (x :: xs') ++ ']' :: rest) from by simp [json_dumps]]
          have hred : parseValue (f + 1) ('[' :: (dumpsElems (x :: xs') ++ ']' :: rest)) =
              (match skipWs (dumpsElems (x :: xs') ++ ']' :: rest) with
               | [] => .error "Expecting value".toList
               | c2 :: rest2 =>
                 if c2 = ']' then .ok (.arr [], rest2)
                 else
                   match parseElems f (dumpsElems (x :: xs') ++ ']' :: rest) [] with
                   | .error msg => .error msg
                   | .ok (ys, r) => .ok (.arr ys, r)) := rfl
          rw [hred]
          obtain ⟨c, t, hdc, hws, hrb⟩ := dumpsElems_head x xs'
          rw [hdc, List.cons_append, skipWs_not_ws _ hws]
          dsimp only
          rw [if_neg hrb]
          rw [← List.cons_append, ← hdc]
          have hlen' : (dumpsElems (x :: xs')).length + 2 < f + 1 := by
            have : (json_dumps (.arr (x :: xs'))).length =
                (dumpsElems (x :: xs')).length + 2 := by
              simp [json_dumps]
            omega
          have he := ihE (x :: xs') rest [] (by rwa [printableJ] at hpr)
            (by omega) (by simp)
          rw [he]
          simp
      · rcases fs with _ | ⟨⟨k, v⟩, fs'⟩
        · rfl
        · rw [show json_dumps (.obj ((k, v) :: fs')) ++ rest =
              '\x7b' :: (dumpsFields ((k, v) :: fs') ++ '\x7d' :: rest) from by
            simp [json_dumps]]
          have hred : parseValue (f + 1)
              ('\x7b' :: (dumpsFields ((k, v) :: fs') ++ '\x7d' :: rest)) =
              (match skipWs (dumpsFields ((k, v) :: fs') ++ '\x7d' :: rest) with
               | [] => .error "Expecting property name".toList
               | c2 :: rest2 =>
                 if c2 = '\x7d' then .ok (.obj [], rest2)
                 else
                   match parseMembers f (dumpsFields ((k, v) :: fs') ++ '\x7d' :: rest) [] with
                   | .error msg => .error msg
                   | .ok (gs, r) => .ok (.obj gs, r)) := rfl
          rw [hred, dumpsFields_cons, List.cons_append, skipWs_not_ws _ (by decide)]
          dsimp only
          rw [if_neg (by decide : ¬('"' : Char) = '\x7d')]
          rw [← List.cons_append, ← dumpsFields_cons]
          rw [printableJ] at hpr
          obtain ⟨hnd2, hpf⟩ := (Bool.and_eq_true _ _).mp hpr
          have hlen' : (dumpsFields ((k, v) :: fs')).length + 2 < f + 1 := by
            have : (json_dumps (.obj ((k, v) :: fs'))).length =
                (dumpsFields ((k, v) :: fs')).length + 2 := by
              simp [json_dumps]
            omega
          have hm := ihM ((k, v) :: fs') rest [] hpf hnd2
            (fun kv _ => rfl) (by omega) (by simp)
          rw [hm]
          simp
    · intro xs rest acc hpl hlen hne
      rcases xs with _ | ⟨x, xs'⟩
      · exact absurd rfl hne
      · rw [dumpsElems_cons, List.append_assoc, parseElems.eq_def]
        dsimp only
        rw [printableL] at hpl
        obtain ⟨hpx, hpl'⟩ := (Bool.and_eq_true _ _).mp hpl
        have hlen1 : (dumpsElems (x :: xs')).length =
            (json_dumps x).length + (elemsTail xs').length := by
          rw [dumpsElems_cons]
          simp
        have hval := ihV x (elemsTail xs' ++ ']' :: rest) hpx (by omega)
          (elemsTail_notDigit xs' rest)
        rw [hval]
        dsimp only
        rcases xs' with _ | ⟨y, r⟩
        · rw [show elemsTail ([] : List Json) = [] from rfl, List.nil_append]
          rw [skipWs_not_ws _ (show isWs ']' = false from rfl)]
          dsimp only
          rw [if_neg (show ¬(']' : Char) = ',' by decide), if_pos rfl]
        · rw [show elemsTail (y :: r) = ',' :: ' ' :: dumpsElems (y :: r) from rfl]
          rw [List.cons_append, List.cons_append]
          rw [skipWs_not_ws _ (show isWs ',' = false from rfl)]
          dsimp only
          rw [if_pos rfl]
          rw [parseElems_ws f _ _ (show isWs ' ' = true from rfl)]
          have hlen2 : (elemsTail (y :: r)).length = 2 + (dumpsElems (y :: r)).length := by
            rw [show elemsTail (y :: r) = ',' :: ' ' :: dumpsElems (y :: r) from rfl]
            simp
            omega
          have hrec := ihE (y :: r) rest (acc ++ [x]) hpl' (by omega) (by simp)
          rw [hrec]
          simp
    · intro fs rest acc hpf hnodup hfresh hlen hne
      rcases fs with _ | ⟨⟨k, v⟩, fs'⟩
      · exact absurd rfl hne
      · rw [printableF] at hpf
        obtain ⟨hkv, hpf'⟩ := (Bool.and_eq_true _ _).mp hpf
        obtain ⟨hkp, hvp⟩ := (Bool.and_eq_true _ _).mp hkv
        rw [keysNodup] at hnodup
        obtain ⟨hck, hnodup'⟩ := (Bool.and_eq_true _ _).mp hnodup
        have hfk : containsKey acc k = false := hfresh (k, v) (List.mem_cons_self _ _)
        have hL : (dumpsFields ((k, v) :: fs')).length =
            4 + (escapeStr k).length + (json_dumps v).length + (fieldsTail fs').length := by
          rw [dumpsFields_cons]
          simp
          omega
        rw [dumpsFields_cons]
        rw [show ('"' :: (escapeStr k ++ '"' :: ':' :: ' ' ::
            (json_dumps v ++ fieldsTail fs')) : Str) ++ '\x7d' :: rest =
          '"' :: (escapeStr k ++ '"' :: (':' :: ' ' ::
            (json_dumps v ++ (fieldsTail fs' ++ '\x7d' :: rest)))) from by simp]
        rw [parseMembers.eq_def]
        dsimp only
        rw [skipWs_not_ws _ (show isWs '"' = false from rfl)]
        dsimp only
        rw [if_pos rfl]
        rw [parseStringBody_escape k _ hkp]
        dsimp only
        rw [skipWs_not_ws _ (show isWs ':' = false from rfl)]
        dsimp only
        rw [if_pos rfl]
        rw [parseValue_ws f _ (show isWs ' ' = true from rfl)]
        rw [ihV v (fieldsTail fs' ++ '\x7d' :: rest) hvp (by omega)
          (fieldsTail_notDigit fs' rest)]
        dsimp only
        rcases fs' with _ | ⟨m, r⟩
        · rw [show fieldsTail ([] : List (Str × Json)) = [] from rfl, List.nil_append]
          rw [skipWs_not_ws _ (show isWs '\x7d' = false from rfl)]
          dsimp only
          rw [if_neg (show ¬('\x7d' : Char) = ',' by decide), if_pos rfl]
          rw [insertKey_fresh hfk]
        · rw [show fieldsTail (m :: r) = ',' :: ' ' :: dumpsFields (m :: r) from rfl]
          rw [List.cons_append, List.cons_append]
          rw [skipWs_not_ws _ (show isWs ',' = false from rfl)]
          dsimp only
          rw [if_pos rfl]
          rw [parseMembers_ws f _ _ (show isWs ' ' = true from rfl)]
          rw [insertKey_fresh hfk]
          have hfresh' : ∀ kv ∈ (m :: r), containsKey (acc ++ [(k, v)]) kv.1 = false := by
            intro kv hm
            rw [containsKey_append]
            have h1 : containsKey acc kv.1 = false :=
              hfresh kv (List.mem_cons_of_mem _ hm)
            have h2 : kv.1 ≠ k := containsKey_eq_false (by simpa using hck) kv hm
            have h3 : containsKey [(k, v)] kv.1 = false := by
              rw [containsKey_cons]
              simp [containsKey]
              exact fun he => absurd he.symm h2
            rw [h1, h3]
            rfl
          have hlen2 : (fieldsTail (m :: r)).length = 2 + (dumpsFields (m :: r)).length := by
            rw [show fieldsTail (m :: r) = ',' :: ' ' :: dumpsFields (m :: r) from rfl]
            simp
            omega
          have hrec := ihM (m :: r) rest (acc ++ [(k, v)]) hpf' hnodup' hfresh'
            (by omega) (by simp)
          rw [hrec]
          simp

theorem json_loads_dumps (j : Json) (h : printableJ j = true) :
    json_loads (json_dumps j) = .ok j := by
  rw [json_loads]
  have hv := (parse_roundtrip ((json_dumps j).length + 1)).1 j [] h (by omega) rfl
  rw [List.append_nil] at hv
  rw [hv]
  rfl

/-- C8: the `data` output emitted by `output_build_info` is the JSON
serialization of the final build descriptor; deserializing it returns
exactly that descriptor (stated on the printable domain — strings free of
control characters, objects with distinct keys — which covers every
descriptor produced by `json.loads` of a response), so its `id`,
`number`, `url`, `web_url` and `state` fields are the very values whose
renderings are emitted as the individual named outputs. -/
theorem data_output_roundtrip (bi : Json) (evs : List Event)
    (hp : printableJ bi = true) (hout : output_build_info bi = (evs, none)) :
    json_loads (json_dumps bi) = .ok bi ∧
    Event.setOutput "data".toList (json_dumps bi) ∈ evs ∧
    ∀ n, n ∈ outputFields → ∃ v, pyGetItem bi n = .ok v ∧
      Event.setOutput n (pyStr v) ∈ evs := by
  obtain ⟨hall, hdata, -⟩ := outputNamed_ok bi outputFields evs hout
  exact ⟨json_loads_dumps bi hp, hdata, hall⟩

/-- Witness for C8 at the concrete passed descriptor. -/
theorem data_output_roundtrip_witness :
    json_loads (json_dumps passedResp) = .ok passedResp ∧
    Event.setOutput "data".toList (json_dumps passedResp) ∈ (output_build_info passedResp).1 ∧
    ∀ n, n ∈ outputFields → ∃ v, pyGetItem passedResp n = .ok v ∧
      Event.setOutput n (pyStr v) ∈ (output_build_info passedResp).1 :=
  data_output_roundtrip passedResp (output_build_info passedResp).1 (by rfl) rfl
